import Mathlib

/-!
# go-flat: the streaming transformers and the slice operation

A shallow embedding of `transformers.go` and `slice.go`.

Every stage of the pipeline is a sequential goroutine with one input channel and
one output channel, so its behaviour on a finite input stream is a function of
that stream.  A stage is therefore modelled as a function from the finite list of
values its input channel delivers before it is closed to an `Outcome`: the
operations the stage performs on its output channel, in order, the number of
values it received, and the panic that ended it, if any.  Channel capacity and
scheduling only decide when a send or a receive completes, never which one comes
next, and are left out; the consumer of the output channel is taken to keep
receiving.

Go `int` values are modelled as `Int`.  The only arithmetic in the sources is a
row counter incremented once per received row and the difference `to - from` of
a validated window, neither of which leaves the 64-bit range on a real stream.
Go strings are modelled as `String` (valid UTF-8 text).
-/

namespace Flat

/-! ## Data model -/

/-- A record: the Go struct `Row` with its two `[]string` fields. -/
structure Row where
  ColumnNames : List String
  Values : List String
deriving DecidableEq, Repr

/-- A `*Row`: `none` is the nil pointer. -/
abbrev Ptr := Option Row

/-- Go `error` values that occur in the two source files. -/
inductive GoError
  /-- The value of `errors.New(text)`. -/
  | New (text : String)
  /-- The package-level constant `USAGE_ERROR`, declared outside the two source files. -/
  | USAGE_ERROR
  /-- The value of `cli.NewExitError(message, exitCode)`. -/
  | ExitError (message : String) (exitCode : Int)
  /-- An error reported by the source reader on its one-shot channel. -/
  | startup (cause : String)
deriving DecidableEq, Repr

/-- The ways a goroutine of `transformers.go` can panic. -/
inductive Panic
  /-- From `panic(err)` with an error value. -/
  | error (err : GoError)
  /-- From `panic(fmt.Sprintf("index %d exceeds row length (%d)", idx, len))`. -/
  | indexExceeds (idx : Int) (len : Int)
  /-- The run-time panic of an index expression `xs[idx]` out of range. -/
  | indexOutOfRange (idx : Int) (len : Int)
  /-- The run-time panic of a field access through a nil `*Row`. -/
  | nilDereference
deriving DecidableEq, Repr

/-- An operation on the output channel. -/
inductive Event
  /-- The statement `output <- row`. -/
  | send (row : Ptr)
  /-- The statement `close(output)`. -/
  | close
deriving DecidableEq, Repr

/-- What a stage did on one run. -/
structure Outcome where
  /-- The operations performed on the output channel, in program order. -/
  events : List Event
  /-- How many values the stage received from its input channel. -/
  taken : Nat
  /-- The panic that ended the run, if one did. -/
  panic : Option Panic
deriving DecidableEq, Repr

/-- A `Transformer`, run on the values its input channel delivers. -/
abbrev Transformer := List Ptr → Outcome

/-- A `Filter`: a test on a row pointer, which may panic. -/
abbrev Filter := Ptr → Except Panic Bool

namespace Outcome

/-- The stage returns here, having done nothing more. -/
def done : Outcome := ⟨[], 0, none⟩

/-- The stage panics here. -/
def raise (p : Panic) : Outcome := ⟨[], 0, some p⟩

/-- One value is received from the input channel, then `k` happens. -/
def recv (k : Outcome) : Outcome := ⟨k.events, k.taken + 1, k.panic⟩

/-- The statement `output <- row`, then `k` happens. -/
def send (row : Ptr) (k : Outcome) : Outcome := ⟨Event.send row :: k.events, k.taken, k.panic⟩

/-- A `close(output)` placed after the statements that produced `body`: it is reached
only if they did not panic. -/
def thenClose (body : Outcome) : Outcome :=
  match body.panic with
  | none => ⟨body.events ++ [Event.close], body.taken, none⟩
  | some p => ⟨body.events, body.taken, some p⟩

/-- The rows sent on the output channel, in order. -/
def rows (o : Outcome) : List Ptr :=
  o.events.filterMap fun e => match e with
    | Event.send row => some row
    | Event.close => none

/-- The number of `close(output)` operations. -/
def closes (o : Outcome) : Nat := o.events.count Event.close

end Outcome

/-! ## `transformers.go` -/

/-- The `for row := range input` loop of `RowSkipper`, entered with the given `count`. -/
def RowSkipper.range (n : Int) : Int → List Ptr → Outcome
  | _, [] => Outcome.done
  | count, row :: rest =>
    Outcome.recv <|
      if count ≥ n then Outcome.send row (RowSkipper.range n (count + 1) rest)
      else RowSkipper.range n (count + 1) rest

/-- The transformer `RowSkipper(n)`. -/
def RowSkipper (n : Int) : Transformer := fun input =>
  (RowSkipper.range n 0 input).thenClose

/-- The `for row := range input` loop of `RowLimiter`, entered with the given `count`;
the `break` leaves the rest of the input unread. -/
def RowLimiter.range (n : Int) : Int → List Ptr → Outcome
  | _, [] => Outcome.done
  | count, row :: rest =>
    Outcome.recv <| Outcome.send row <|
      if count + 1 = n then Outcome.done
      else RowLimiter.range n (count + 1) rest

/-- The transformer `RowLimiter(n)`. -/
def RowLimiter (n : Int) : Transformer := fun input =>
  (RowLimiter.range n 0 input).thenClose

/-- The function `contains`. -/
def contains : List Int → Int → Bool
  | [], _ => false
  | i :: rest, item => if i = item then true else contains rest item

/-- The `for i, a := range args` loop of `argin`, entered at index `i`; when the loop
runs out, `argin` returns `-1` and the error `errors.New("not found")`. -/
def argin.range (m : String) : Int → List String → Int × Option GoError
  | _, [] => (-1, some (GoError.New "not found"))
  | i, a :: rest => if a = m then (i, none) else argin.range m (i + 1) rest

/-- The function `argin`: the index of `m` in `args` and a nil error, or `-1` and an
error. -/
def argin (args : List String) (m : String) : Int × Option GoError :=
  argin.range m 0 args

/-- The field access `row.ColumnNames` or `row.Values` through a `*Row`. -/
def deref : Ptr → Except Panic Row
  | none => Except.error Panic.nilDereference
  | some row => Except.ok row

/-- The index expression `xs[idx]` on a `[]string`. -/
def index (xs : List String) (idx : Int) : Except Panic String :=
  if idx < 0 then Except.error (Panic.indexOutOfRange idx xs.length)
  else
    match xs.get? idx.toNat with
    | some x => Except.ok x
    | none => Except.error (Panic.indexOutOfRange idx xs.length)

/-- The loop of `ColumnIntSelector` that runs on the first row: it appends to `colnames`
the name at each index, after the guard `idx > len(row.ColumnNames)`. -/
def ColumnIntSelector.names (row : Ptr) : List String → List Int → Except Panic (List String)
  | colnames, [] => Except.ok colnames
  | colnames, idx :: rest =>
    match deref row with
    | Except.error p => Except.error p
    | Except.ok r =>
      if idx > r.ColumnNames.length then
        Except.error (Panic.indexExceeds idx r.ColumnNames.length)
      else
        match index r.ColumnNames idx with
        | Except.error p => Except.error p
        | Except.ok name => ColumnIntSelector.names row (colnames ++ [name]) rest

/-- The loop of `ColumnIntSelector` that fills `values` for one row. -/
def ColumnIntSelector.values (row : Ptr) : List Int → Except Panic (List String)
  | [] => Except.ok []
  | idx :: rest =>
    match deref row with
    | Except.error p => Except.error p
    | Except.ok r =>
      match index r.Values idx with
      | Except.error p => Except.error p
      | Except.ok v =>
        match ColumnIntSelector.values row rest with
        | Except.error p => Except.error p
        | Except.ok vs => Except.ok (v :: vs)

/-- The `for row := range input` loop of `ColumnIntSelector`, entered with the given
values of `colnames` and `first`. -/
def ColumnIntSelector.range (indices : List Int) : List String → Bool → List Ptr → Outcome
  | _, _, [] => Outcome.done
  | colnames, first, row :: rest =>
    Outcome.recv <|
      match (if first then ColumnIntSelector.names row colnames indices
             else Except.ok colnames) with
      | Except.error p => Outcome.raise p
      | Except.ok colnames =>
        match ColumnIntSelector.values row indices with
        | Except.error p => Outcome.raise p
        | Except.ok values =>
          Outcome.send (some ⟨colnames, values⟩)
            (ColumnIntSelector.range indices colnames false rest)

/-- The transformer `ColumnIntSelector(indices)`. -/
def ColumnIntSelector (indices : List Int) : Transformer := fun input =>
  (ColumnIntSelector.range indices [] true input).thenClose

/-- The loop of `ColumnStringSelector` that resolves each requested column in the first
row and panics with the error of `argin` on the first one that is not found. -/
def ColumnStringSelector.indices (row : Row) : List String → Except Panic (List Int)
  | [] => Except.ok []
  | col :: rest =>
    match argin row.ColumnNames col with
    | (_, some err) => Except.error (Panic.error err)
    | (idx, none) =>
      match ColumnStringSelector.indices row rest with
      | Except.error p => Except.error p
      | Except.ok idxs => Except.ok (idx :: idxs)

/-- The transformer `ColumnStringSelector(columns)`.  The receive `row := <-input` gives
nil on a closed channel.  After the indices are resolved, the first row and every later
row are handed over the unbuffered channel `newInput` to a `ColumnIntSelector` goroutine
writing to the same `output`, so the events are those of that goroutine, and `taken`
counts the rows it was handed, each of them received from `input` before. -/
def ColumnStringSelector (columns : List String) : Transformer := fun input =>
  match input with
  | [] => Outcome.done.thenClose
  | none :: _ => Outcome.recv Outcome.done.thenClose
  | some row :: rest =>
    match ColumnStringSelector.indices row columns with
    | Except.error p => Outcome.recv (Outcome.raise p)
    | Except.ok indices => ColumnIntSelector indices (some row :: rest)

/-- The predicate `unicode.IsSpace`. -/
def isSpace (c : Char) : Bool :=
  let n := c.toNat
  decide ((0x09 ≤ n ∧ n ≤ 0x0D) ∨ n = 0x20 ∨ n = 0x85 ∨ n = 0xA0 ∨ n = 0x1680 ∨
    (0x2000 ≤ n ∧ n ≤ 0x200A) ∨ n = 0x2028 ∨ n = 0x2029 ∨ n = 0x202F ∨ n = 0x205F ∨
    n = 0x3000)

/-- The library function `strings.TrimSpace`: the leading and the trailing white space
removed. -/
def TrimSpace (s : String) : String :=
  ⟨(s.data.dropWhile isSpace).rdropWhile isSpace⟩

/-- The call `strings.SplitN(s, "=", 2)`: the text before and the text after the first
`=`, or `s` alone when it has none. -/
def SplitN (s : String) : List String :=
  match s.data.span (fun c => c != '=') with
  | (before, _ :: after) => [⟨before⟩, ⟨after⟩]
  | (_, []) => [s]

/-- The closure returned by `predicateAsFunc`, over `parts[0]` and `parts[1]`. -/
def predicateAsFunc.filter (column value : String) : Filter := fun row =>
  match deref row with
  | Except.error p => Except.error p
  | Except.ok r =>
    match argin r.ColumnNames (TrimSpace column) with
    | (_, some err) => Except.error (Panic.error err)
    | (colIdx, none) =>
      match index r.Values colIdx with
      | Except.error p => Except.error p
      | Except.ok v => Except.ok (decide (v = TrimSpace value))

/-- The function `predicateAsFunc`: a filter and a nil error, or a nil filter and an
error. -/
def predicateAsFunc (predicate : String) : Except GoError Filter :=
  match SplitN predicate with
  | [column, value] => Except.ok (predicateAsFunc.filter column value)
  | _ => Except.error (GoError.New "predicate parsing error")

/-- The `for row := range input` loop of the transformer that `Predicator` returns. -/
def Predicator.range (filter : Filter) : List Ptr → Outcome
  | [] => Outcome.done
  | row :: rest =>
    Outcome.recv <|
      match filter row with
      | Except.error p => Outcome.raise p
      | Except.ok true => Outcome.send row (Predicator.range filter rest)
      | Except.ok false => Predicator.range filter rest

/-- The function `Predicator`: it panics at construction when the predicate does not
parse, and returns a transformer otherwise. -/
def Predicator (predicate : String) : Except Panic Transformer :=
  match predicateAsFunc predicate with
  | Except.error err => Except.error (Panic.error err)
  | Except.ok filter => Except.ok fun input => (Predicator.range filter input).thenClose

/-- The `for row := range input` loop of `IdentityTransformer`. -/
def IdentityTransformer.range : List Ptr → Outcome
  | [] => Outcome.done
  | row :: rest => Outcome.recv (Outcome.send row (IdentityTransformer.range rest))

/-- The transformer `IdentityTransformer`. -/
def IdentityTransformer : Transformer := fun input =>
  (IdentityTransformer.range input).thenClose

/-! ## `slice.go` -/

/-- Modelled from the spec: the source reader `readInputs` is not among the sources.  By
the spec it reports at most one start-up error on its one-shot channel, a kind of error
apart from the usage errors.  This is the result of the receive `err, ok := <-ret`: the
channel was closed without a value (`ok` is false), or a value arrived, nil or a start-up
error with its cause. -/
inductive Signal
  | closed
  | value (cause : Option String)
deriving DecidableEq, Repr

/-- What one call of `slice` did. -/
structure SliceResult where
  /-- The returned error; `none` is nil. -/
  err : Option GoError
  /-- The messages written to standard error. -/
  stderr : List String
  /-- Whether the `go readInputs(...)` statement was reached. -/
  started : Bool
  /-- How many lines the loop `for i != from` received from `pending`. -/
  discarded : Nat
  /-- The lines handed to the output writer. -/
  written : List String
deriving DecidableEq, Repr

/-- Modelled from the spec: `handleLines`, the stage that writes lines from `pending` to
the output, is called by `slice` with the count `to - from` and is not among the sources.
By the spec it forwards up to `to - from` lines, stopping when that count is reached or
the queue closes, and the window is unbounded when `to == -1`; the counts `slice` passes
for such windows are the negative ones. -/
def handleLines (pending : List String) (n : Int) : List String :=
  if n < 0 then pending else pending.take n.toNat

/-- The loop `for i != from` of `slice`, entered with the given `i`: the number of lines
received, and the lines still to come on `pending`, or `none` when `pending` was closed
before `i` reached `from`. -/
def slice.skip (from_ : Int) : Int → List String → Nat × Option (List String)
  | i, [] => if i ≠ from_ then (0, none) else (0, some [])
  | i, line :: rest =>
    if i ≠ from_ then
      ((slice.skip from_ (i + 1) rest).1 + 1, (slice.skip from_ (i + 1) rest).2)
    else (0, some (line :: rest))

/-- The function `slice`.  The source reader `readInputs` is not among the sources: what
it reports on `ret` and the lines it puts on `pending` before closing it are
parameters. -/
def slice (ret : Signal) (input : List String) (from_ to_ : Int) : SliceResult :=
  if to_ ≠ -1 ∧ to_ ≤ from_ then
    ⟨some GoError.USAGE_ERROR, ["--from argument must be greater than --to argument\n"],
      false, 0, []⟩
  else if from_ < 0 then
    ⟨some GoError.USAGE_ERROR, ["--from must be greater than or equal to 0\n"], false, 0, []⟩
  else
    match ret with
    | Signal.value cause => ⟨cause.map GoError.startup, [], true, 0, []⟩
    | Signal.closed =>
      match slice.skip from_ 0 input with
      | (k, none) => ⟨some (GoError.ExitError "slice beginning not reached" 2), [], true, k, []⟩
      | (k, some rest) => ⟨none, [], true, k, handleLines rest (to_ - from_)⟩

/-! ## Test data -/

/-- The rows of the examples: columns `a`, `b` with values `1`, `2` and `3`, `4`. -/
def exampleRows : List Row :=
  [⟨["a", "b"], ["1", "2"]⟩, ⟨["a", "b"], ["3", "4"]⟩]

/-- Ten lines `r0` to `r9`. -/
def tenLines : List String :=
  ["r0", "r1", "r2", "r3", "r4", "r5", "r6", "r7", "r8", "r9"]

/-- Five lines `r0` to `r4`. -/
def fiveLines : List String := ["r0", "r1", "r2", "r3", "r4"]

/-! ## Vocabulary of the properties -/

/-- The elements of `xs` at the positions `idx`, in the order of `idx` and with its
repetitions: `[xs[j] for j in idx]`. -/
def pick (xs : List String) (idx : List Int) : List String :=
  idx.map fun j => xs.getD j.toNat ""

/-- The position of each requested column in the column names of a row. -/
def positions (names columns : List String) : List Int :=
  columns.map fun c => ((names.indexOf c : Nat) : Int)

/-- The invariant of the data model: a row has as many values as column names. -/
def Row.valid (r : Row) : Prop := r.ColumnNames.length = r.Values.length

instance (r : Row) : Decidable r.valid := by unfold Row.valid; infer_instance

/-- The row has the value `value` in its leftmost column named `column`. -/
def satisfies (column value : String) (r : Row) : Bool :=
  decide (r.Values.get? (r.ColumnNames.indexOf column) = some value)

/-- The output channel was written to and then closed, once and as the last operation. -/
def Outcome.closedOnce (o : Outcome) : Prop :=
  ∃ sent : List Ptr, o.events = sent.map Event.send ++ [Event.close]

/-- The run closed its output once, as its last operation, unless it ended in a panic, in
which case it did not close its output at all. -/
def Outcome.closedUnlessPanic (o : Outcome) : Prop :=
  (o.panic = none → o.closedOnce) ∧ (o.panic ≠ none → o.closes = 0)

/-- The panic carries an error value, as `panic(err)` does; the others are the guard of
`ColumnIntSelector` and the run-time panics. -/
def Panic.fromError : Panic → Bool
  | Panic.error _ => true
  | _ => false

/-- Three rows of which the second has no column `a`. -/
def mixedRows : List Row :=
  [⟨["a", "b"], ["1", "2"]⟩, ⟨["c"], ["9"]⟩, ⟨["a", "b"], ["1", "4"]⟩]

/-- A row with two columns of the same name. -/
def twinRow : Row := ⟨["a", "a"], ["1", "2"]⟩

/-! ## General facts about outcomes -/

theorem Outcome.rows_mk_sends (sent : List Ptr) (tail : List Event) (taken : Nat)
    (panic : Option Panic) :
    (Outcome.mk (sent.map Event.send ++ tail) taken panic).rows
      = sent ++ (Outcome.mk tail taken panic).rows := by
  induction sent with
  | nil => simp [Outcome.rows]
  | cons row rest ih =>
    simp only [Outcome.rows] at ih
    simp [Outcome.rows, ih]

theorem Outcome.rows_sends_close (sent : List Ptr) (taken : Nat) (panic : Option Panic) :
    (Outcome.mk (sent.map Event.send ++ [Event.close]) taken panic).rows = sent := by
  rw [Outcome.rows_mk_sends]
  simp [Outcome.rows]

theorem Outcome.thenClose_ok (events : List Event) (taken : Nat) :
    (Outcome.mk events taken none).thenClose = ⟨events ++ [Event.close], taken, none⟩ := rfl

/-! ## RowSkipper -/

/-- The loop of `RowSkipper`, entered with any `count`, receives every row and sends all
but the first `n - count` of them. -/
theorem RowSkipper.range_eq (n : Int) (input : List Ptr) (count : Int) :
    RowSkipper.range n count input
      = ⟨(input.drop (n - count).toNat).map Event.send, input.length, none⟩ := by
  induction input generalizing count with
  | nil => simp [RowSkipper.range, Outcome.done]
  | cons row rest ih =>
    simp only [RowSkipper.range, ih]
    split
    · have h1 : (n - count).toNat = 0 := by omega
      have h2 : (n - (count + 1)).toNat = 0 := by omega
      simp [h1, h2, Outcome.recv, Outcome.send]
    · have h1 : (n - count).toNat = (n - (count + 1)).toNat + 1 := by omega
      simp [h1, Outcome.recv]

theorem RowSkipper_eq (n : Int) (input : List Ptr) :
    RowSkipper n input
      = ⟨(input.drop n.toNat).map Event.send ++ [Event.close], input.length, none⟩ := by
  simp [RowSkipper, RowSkipper.range_eq, Outcome.thenClose_ok]

/-- C1: for every finite input and every `n ≥ 0`, `RowSkipper(n)` sends exactly the rows
`input[n:]`, in the original order, and then closes its output once, having received the
whole input without a panic; the number of rows sent is `max(0, len(input) - n)`, `n = 0`
sends the whole input, and an input of at most `n` rows sends nothing. -/
theorem RowSkipper_forwards_drop (n : Nat) (input : List Ptr) :
    RowSkipper (n : Int) input
        = ⟨(input.drop n).map Event.send ++ [Event.close], input.length, none⟩
      ∧ (RowSkipper (n : Int) input).rows = input.drop n
      ∧ (((RowSkipper (n : Int) input).rows.length : Int)
          = max 0 ((input.length : Int) - (n : Int)))
      ∧ (RowSkipper 0 input).rows = input
      ∧ (input.length ≤ n → (RowSkipper (n : Int) input).rows = []) := by
  have h : (RowSkipper (n : Int) input).rows = input.drop n := by
    rw [RowSkipper_eq, Outcome.rows_sends_close]; simp
  refine ⟨by simpa using RowSkipper_eq (n : Int) input, h, ?_, ?_, ?_⟩
  · rw [h, List.length_drop]; omega
  · rw [RowSkipper_eq, Outcome.rows_sends_close]; simp
  · intro hlen
    rw [h]; exact List.drop_eq_nil_of_le hlen

/-- A run of `RowSkipper(1)` on the two example rows, and of `RowSkipper(5)` on them. -/
theorem RowSkipper_forwards_drop_witness :
    (RowSkipper 1 (exampleRows.map some)).rows = [some ⟨["a", "b"], ["3", "4"]⟩]
      ∧ (RowSkipper 5 (exampleRows.map some)).rows = [] :=
  ⟨(RowSkipper_forwards_drop 1 (exampleRows.map some)).2.1.trans (by decide),
   (RowSkipper_forwards_drop 5 (exampleRows.map some)).2.2.2.2 (by decide)⟩

/-! ## RowLimiter -/

/-- The loop of `RowLimiter` entered with `count < n`: it stops after `n - count` rows. -/
theorem RowLimiter.range_lt (n : Int) (input : List Ptr) (count : Int) (h : count < n) :
    RowLimiter.range n count input
      = ⟨(input.take (n - count).toNat).map Event.send,
          min (n - count).toNat input.length, none⟩ := by
  induction input generalizing count with
  | nil => simp [RowLimiter.range, Outcome.done]
  | cons row rest ih =>
    have h1 : (n - count).toNat = (n - (count + 1)).toNat + 1 := by omega
    simp only [RowLimiter.range]
    split
    · next heq =>
      have h2 : (n - (count + 1)).toNat = 0 := by omega
      simp [h1, h2, Outcome.recv, Outcome.send, Outcome.done]
    · next hne =>
      have hlt : count + 1 < n := by omega
      rw [ih (count + 1) hlt, h1]
      simp only [Outcome.recv, Outcome.send, List.take_succ_cons, List.map_cons,
        List.length_cons, Nat.add_min_add_right]

/-- The loop of `RowLimiter` entered with `count ≥ n`: the test `count == n` after the
increment never holds, and every row is sent. -/
theorem RowLimiter.range_ge (n : Int) (input : List Ptr) (count : Int) (h : n ≤ count) :
    RowLimiter.range n count input = ⟨input.map Event.send, input.length, none⟩ := by
  induction input generalizing count with
  | nil => simp [RowLimiter.range, Outcome.done]
  | cons row rest ih =>
    have hne : ¬ (count + 1 = n) := by omega
    simp only [RowLimiter.range, if_neg hne]
    rw [ih (count + 1) (by omega)]
    simp [Outcome.recv, Outcome.send]

theorem RowLimiter_pos (n : Int) (input : List Ptr) (h : 0 < n) :
    RowLimiter n input
      = ⟨(input.take n.toNat).map Event.send ++ [Event.close], min n.toNat input.length,
          none⟩ := by
  simp [RowLimiter, RowLimiter.range_lt n input 0 h, Outcome.thenClose_ok]

theorem RowLimiter_nonpos (n : Int) (input : List Ptr) (h : n ≤ 0) :
    RowLimiter n input = ⟨input.map Event.send ++ [Event.close], input.length, none⟩ := by
  simp [RowLimiter, RowLimiter.range_ge n input 0 h, Outcome.thenClose_ok]

/-- C2: `RowLimiter(0)` on the two example rows sends both rows, where `input[:0]` is
empty: the limit `0` does not yield an empty output stream. -/
theorem RowLimiter_zero_forwards_all :
    (RowLimiter 0 (exampleRows.map some)).rows = exampleRows.map some
      ∧ (RowLimiter 0 (exampleRows.map some)).rows ≠ (exampleRows.map some).take 0 := by
  decide

/-! ## ColumnIntSelector -/

theorem index_ok (xs : List String) (j : Int) (h : 0 ≤ j ∧ j < xs.length) :
    index xs j = Except.ok (xs.getD j.toNat "") := by
  have hlt : j.toNat < xs.length := by omega
  have hget : xs.get? j.toNat = some (xs.getD j.toNat "") := by
    rw [List.getD_eq_getElem?_getD]; simp [hlt]
  have hneg : ¬ j < 0 := by omega
  simp only [index, if_neg hneg, hget]

theorem pick_some (xs : List String) (idx : List Int)
    (h : ∀ j ∈ idx, 0 ≤ j ∧ j < xs.length) :
    (pick xs idx).map some = idx.map fun j => xs.get? j.toNat := by
  induction idx with
  | nil => rfl
  | cons j rest ih =>
    have hj := h j (List.mem_cons_self j rest)
    have hlt : j.toNat < xs.length := by omega
    have hget : xs.get? j.toNat = some (xs.getD j.toNat "") := by
      rw [List.getD_eq_getElem?_getD]; simp [hlt]
    have ih2 := ih fun k hk => h k (List.mem_cons_of_mem j hk)
    simp only [pick, List.map_cons, List.map_map] at ih2 ⊢
    rw [hget, ih2]

/-- The loop over the first row appends the picked names when every index is in range. -/
theorem ColumnIntSelector.names_ok (r : Row) (idx : List Int) (colnames : List String)
    (h : ∀ j ∈ idx, 0 ≤ j ∧ j < r.ColumnNames.length) :
    ColumnIntSelector.names (some r) colnames idx
      = Except.ok (colnames ++ pick r.ColumnNames idx) := by
  induction idx generalizing colnames with
  | nil => simp [ColumnIntSelector.names, pick]
  | cons j rest ih =>
    have hj := h j (List.mem_cons_self j rest)
    have hgt : ¬ j > r.ColumnNames.length := by omega
    simp only [ColumnIntSelector.names, deref, if_neg hgt, index_ok _ _ hj]
    rw [ih _ fun k hk => h k (List.mem_cons_of_mem j hk)]
    simp [pick]

/-- The loop over the indices fills `values` with the picked values when every index is in
range. -/
theorem ColumnIntSelector.values_ok (r : Row) (idx : List Int)
    (h : ∀ j ∈ idx, 0 ≤ j ∧ j < r.Values.length) :
    ColumnIntSelector.values (some r) idx = Except.ok (pick r.Values idx) := by
  induction idx with
  | nil => simp [ColumnIntSelector.values, pick]
  | cons j rest ih =>
    have hj := h j (List.mem_cons_self j rest)
    simp only [ColumnIntSelector.values, deref, index_ok _ _ hj]
    rw [ih fun k hk => h k (List.mem_cons_of_mem j hk)]
    simp [pick]

/-- After the first row, the loop of `ColumnIntSelector` sends one projected row per input
row under the cached column names. -/
theorem ColumnIntSelector.range_later (idx : List Int) (colnames : List String)
    (rows : List Row) (h : ∀ r ∈ rows, ∀ j ∈ idx, 0 ≤ j ∧ j < r.Values.length) :
    ColumnIntSelector.range idx colnames false (rows.map some)
      = ⟨rows.map fun r => Event.send (some ⟨colnames, pick r.Values idx⟩),
          rows.length, none⟩ := by
  induction rows with
  | nil => simp [ColumnIntSelector.range, Outcome.done]
  | cons r rest ih =>
    have hr := h r (List.mem_cons_self r rest)
    simp only [List.map_cons, ColumnIntSelector.range, ColumnIntSelector.values_ok r idx hr,
      Bool.false_eq_true, if_false]
    rw [ih fun q hq => h q (List.mem_cons_of_mem r hq)]
    simp [Outcome.recv, Outcome.send]

theorem ColumnIntSelector_eq (idx : List Int) (first : Row) (rest : List Row)
    (hnames : ∀ j ∈ idx, 0 ≤ j ∧ j < first.ColumnNames.length)
    (hvalues : ∀ r ∈ first :: rest, ∀ j ∈ idx, 0 ≤ j ∧ j < r.Values.length) :
    ColumnIntSelector idx ((first :: rest).map some)
      = ⟨((first :: rest).map fun r =>
            Event.send (some ⟨pick first.ColumnNames idx, pick r.Values idx⟩))
          ++ [Event.close], (first :: rest).length, none⟩ := by
  have hfirst := hvalues first (List.mem_cons_self first rest)
  have hrest : ∀ r ∈ rest, ∀ j ∈ idx, 0 ≤ j ∧ j < r.Values.length :=
    fun r hr => hvalues r (List.mem_cons_of_mem first hr)
  simp only [ColumnIntSelector, List.map_cons, ColumnIntSelector.range, if_true,
    ColumnIntSelector.names_ok first idx [] hnames,
    ColumnIntSelector.values_ok first idx hfirst, List.nil_append]
  rw [ColumnIntSelector.range_later idx _ rest hrest]
  simp [Outcome.recv, Outcome.send, Outcome.thenClose_ok]

/-- C3: for every index list and every non-empty input whose indices are positions of the
first row's column names and of every row's values, `ColumnIntSelector(idx)` sends one row
per input row, in input order, then closes its output; output row `i` has the values
`[input[i].Values[j] for j in idx]` and every output row has the column names
`[input[0].ColumnNames[j] for j in idx]`, in the order and with the repetitions of `idx`. -/
theorem ColumnIntSelector_projects (idx : List Int) (first : Row) (rest : List Row)
    (hnames : ∀ j ∈ idx, 0 ≤ j ∧ j < first.ColumnNames.length)
    (hvalues : ∀ r ∈ first :: rest, ∀ j ∈ idx, 0 ≤ j ∧ j < r.Values.length) :
    ColumnIntSelector idx ((first :: rest).map some)
        = ⟨((first :: rest).map fun r =>
              Event.send (some ⟨pick first.ColumnNames idx, pick r.Values idx⟩))
            ++ [Event.close], (first :: rest).length, none⟩
      ∧ (ColumnIntSelector idx ((first :: rest).map some)).rows
          = (first :: rest).map (fun r =>
              some ⟨pick first.ColumnNames idx, pick r.Values idx⟩)
      ∧ (pick first.ColumnNames idx).map some
          = idx.map (fun j => first.ColumnNames.get? j.toNat)
      ∧ ∀ r ∈ first :: rest,
          (pick r.Values idx).map some = idx.map (fun j => r.Values.get? j.toNat) := by
  have h := ColumnIntSelector_eq idx first rest hnames hvalues
  refine ⟨h, ?_, pick_some _ _ hnames, fun r hr => pick_some _ _ (hvalues r hr)⟩
  rw [h]
  have hmap : ((first :: rest).map fun r =>
      Event.send (some ⟨pick first.ColumnNames idx, pick r.Values idx⟩))
      = ((first :: rest).map fun r =>
          (some ⟨pick first.ColumnNames idx, pick r.Values idx⟩ : Ptr)).map Event.send := by
    simp
  rw [hmap, Outcome.rows_sends_close]

/-- The indices `[1, 1, 0]` on the two example rows: the order and the repetition are
kept. -/
theorem ColumnIntSelector_projects_witness :
    (ColumnIntSelector [1, 1, 0] (exampleRows.map some)).rows
      = [some ⟨["b", "b", "a"], ["2", "2", "1"]⟩, some ⟨["b", "b", "a"], ["4", "4", "3"]⟩] :=
  (ColumnIntSelector_projects [1, 1, 0] ⟨["a", "b"], ["1", "2"]⟩ [⟨["a", "b"], ["3", "4"]⟩]
    (by decide) (by decide)).2.1.trans (by decide)

/-! ## argin and ColumnStringSelector -/

theorem argin.range_mem (m : String) (args : List String) (i : Int) (h : m ∈ args) :
    argin.range m i args = (i + ((args.indexOf m : Nat) : Int), none) := by
  induction args generalizing i with
  | nil => simp at h
  | cons a rest ih =>
    by_cases ha : a = m
    · simp [argin.range, ha, List.indexOf_cons]
    · have hrest : m ∈ rest := by
        rcases List.mem_cons.mp h with h1 | h1
        · exact absurd h1.symm ha
        · exact h1
      simp only [argin.range, if_neg ha, ih (i + 1) hrest, List.indexOf_cons]
      have hb : (a == m) = false := by simpa using ha
      simp only [hb, cond_false, Nat.cast_add, Nat.cast_one]
      congr 1
      omega

theorem argin.range_not_mem (m : String) (args : List String) (i : Int) (h : m ∉ args) :
    argin.range m i args = (-1, some (GoError.New "not found")) := by
  induction args generalizing i with
  | nil => rfl
  | cons a rest ih =>
    have ha : ¬ a = m := fun e => h (e ▸ List.mem_cons_self a rest)
    have hrest : m ∉ rest := fun e => h (List.mem_cons_of_mem a e)
    simp only [argin.range, if_neg ha, ih (i + 1) hrest]

theorem argin_mem (m : String) (args : List String) (h : m ∈ args) :
    argin args m = (((args.indexOf m : Nat) : Int), none) := by
  simp [argin, argin.range_mem m args 0 h]

theorem argin_not_mem (m : String) (args : List String) (h : m ∉ args) :
    argin args m = (-1, some (GoError.New "not found")) :=
  argin.range_not_mem m args 0 h

/-- Name resolution succeeds with the positions of the columns when every column is among
the names of the row. -/
theorem ColumnStringSelector.indices_ok (row : Row) (columns : List String)
    (h : ∀ c ∈ columns, c ∈ row.ColumnNames) :
    ColumnStringSelector.indices row columns
      = Except.ok (positions row.ColumnNames columns) := by
  induction columns with
  | nil => rfl
  | cons c rest ih =>
    simp only [ColumnStringSelector.indices, argin_mem c _ (h c (List.mem_cons_self c rest)),
      ih fun d hd => h d (List.mem_cons_of_mem c hd)]
    rfl

theorem getD_indexOf (names : List String) (c : String) (h : c ∈ names) :
    names.getD (names.indexOf c) "" = c := by
  have hlt : names.indexOf c < names.length := List.indexOf_lt_length.mpr h
  rw [List.getD_eq_getElem?_getD, List.getElem?_eq_getElem hlt]
  simp

theorem pick_positions (names columns : List String) (h : ∀ c ∈ columns, c ∈ names) :
    pick names (positions names columns) = columns := by
  induction columns with
  | nil => rfl
  | cons c rest ih =>
    have ih2 := ih fun d hd => h d (List.mem_cons_of_mem c hd)
    simp only [pick, positions, List.map_cons, List.map_map] at ih2 ⊢
    rw [ih2]
    have hc := getD_indexOf names c (h c (List.mem_cons_self c rest))
    simp only [Int.toNat_ofNat, hc]

/-- C4: for every list of columns and every non-empty input whose first row names each
requested column and whose rows all have a value at each resolved position,
`ColumnStringSelector(columns)` does what `ColumnIntSelector(p)` does on the whole input,
first row included, where `p[k]` is the position of `columns[k]` in the first row's column
names; every output row has the column names `columns` and the values
`[input[i].Values[p[k]] for k]`. -/
theorem ColumnStringSelector_refines (columns : List String) (first : Row) (rest : List Row)
    (hcols : ∀ c ∈ columns, c ∈ first.ColumnNames)
    (hvalues : ∀ r ∈ first :: rest, ∀ c ∈ columns,
      first.ColumnNames.indexOf c < r.Values.length) :
    ColumnStringSelector columns ((first :: rest).map some)
        = ColumnIntSelector (positions first.ColumnNames columns) ((first :: rest).map some)
      ∧ (ColumnStringSelector columns ((first :: rest).map some)).events
          = ((first :: rest).map fun r => Event.send
              (some ⟨columns, pick r.Values (positions first.ColumnNames columns)⟩))
            ++ [Event.close]
      ∧ (ColumnStringSelector columns ((first :: rest).map some)).rows
          = (first :: rest).map (fun r =>
              some ⟨columns, pick r.Values (positions first.ColumnNames columns)⟩)
      ∧ (ColumnStringSelector columns ((first :: rest).map some)).panic = none
      ∧ ∀ r ∈ first :: rest,
          (pick r.Values (positions first.ColumnNames columns)).map some
            = columns.map (fun c => r.Values.get? (first.ColumnNames.indexOf c)) := by
  have hdef : ColumnStringSelector columns ((first :: rest).map some)
      = ColumnIntSelector (positions first.ColumnNames columns)
          ((first :: rest).map some) := by
    simp only [ColumnStringSelector, List.map_cons,
      ColumnStringSelector.indices_ok first columns hcols]
  have hn : ∀ j ∈ positions first.ColumnNames columns,
      0 ≤ j ∧ j < first.ColumnNames.length := by
    intro j hj
    obtain ⟨c, hc, rfl⟩ := List.mem_map.mp hj
    have := List.indexOf_lt_length.mpr (hcols c hc)
    omega
  have hv : ∀ r ∈ first :: rest, ∀ j ∈ positions first.ColumnNames columns,
      0 ≤ j ∧ j < r.Values.length := by
    intro r hr j hj
    obtain ⟨c, hc, rfl⟩ := List.mem_map.mp hj
    have := hvalues r hr c hc
    omega
  have hproj := ColumnIntSelector_eq _ first rest hn hv
  rw [pick_positions _ _ hcols] at hproj
  refine ⟨hdef, ?_, ?_, ?_, ?_⟩
  · rw [hdef, hproj]
  · rw [hdef, hproj]
    have hmap : ((first :: rest).map fun r => Event.send
        (some ⟨columns, pick r.Values (positions first.ColumnNames columns)⟩))
        = ((first :: rest).map fun r =>
            (some ⟨columns, pick r.Values (positions first.ColumnNames columns)⟩ : Ptr)).map
              Event.send := by
      simp
    rw [hmap, Outcome.rows_sends_close]
  · rw [hdef, hproj]
  · intro r hr
    have := pick_some r.Values _ (hv r hr)
    rw [this]
    simp [positions]

/-- The columns `b`, `a` on the two example rows give the rows `2`, `1` and `4`, `3` under
the column names `b`, `a`. -/
theorem ColumnStringSelector_refines_witness :
    (ColumnStringSelector ["b", "a"] (exampleRows.map some)).rows
      = [some ⟨["b", "a"], ["2", "1"]⟩, some ⟨["b", "a"], ["4", "3"]⟩] :=
  (ColumnStringSelector_refines ["b", "a"] ⟨["a", "b"], ["1", "2"]⟩
    [⟨["a", "b"], ["3", "4"]⟩] (by decide) (by decide)).2.2.1.trans (by decide)

/-! ## Predicate parsing -/

theorem span_no_eq (l : List Char) (h : '=' ∉ l) :
    l.span (fun c => c != '=') = (l, []) := by
  rw [List.span_eq_take_drop]
  induction l with
  | nil => rfl
  | cons c rest ih =>
    have hc : c ≠ '=' := fun e => h (e ▸ List.mem_cons_self c rest)
    have hrest : '=' ∉ rest := fun e => h (List.mem_cons_of_mem c e)
    have ih2 := ih hrest
    simp only [Prod.mk.injEq] at ih2
    simp [List.takeWhile_cons, List.dropWhile_cons, hc, ih2.1, ih2.2]

theorem span_first_eq (a b : List Char) (h : '=' ∉ a) :
    (a ++ '=' :: b).span (fun c => c != '=') = (a, '=' :: b) := by
  rw [List.span_eq_take_drop]
  induction a with
  | nil => simp [List.takeWhile_cons, List.dropWhile_cons]
  | cons c rest ih =>
    have hc : c ≠ '=' := fun e => h (e ▸ List.mem_cons_self c rest)
    have hrest : '=' ∉ rest := fun e => h (List.mem_cons_of_mem c e)
    have ih2 := ih hrest
    simp only [Prod.mk.injEq] at ih2
    simp [List.takeWhile_cons, List.dropWhile_cons, hc, ih2.1, ih2.2]

theorem exists_first_eq (l : List Char) (h : '=' ∈ l) :
    ∃ a b, l = a ++ '=' :: b ∧ '=' ∉ a := by
  induction l with
  | nil => simp at h
  | cons c rest ih =>
    by_cases hc : c = '='
    · exact ⟨[], rest, by simp [hc], by simp⟩
    · have hrest : '=' ∈ rest := by
        rcases List.mem_cons.mp h with h1 | h1
        · exact absurd h1.symm hc
        · exact h1
      obtain ⟨a, b, hab, ha⟩ := ih hrest
      refine ⟨c :: a, b, by simp [hab], ?_⟩
      intro hmem
      rcases List.mem_cons.mp hmem with h1 | h1
      · exact hc h1.symm
      · exact ha h1

theorem data_split (lhs rhs : String) :
    (lhs ++ "=" ++ rhs).data = lhs.data ++ '=' :: rhs.data := by
  simp [String.data_append]

/-- Every string with an `=` is a text without `=`, then `=`, then the rest. -/
theorem exists_split (s : String) (h : '=' ∈ s.data) :
    ∃ lhs rhs : String, s = lhs ++ "=" ++ rhs ∧ '=' ∉ lhs.data := by
  obtain ⟨a, b, hab, ha⟩ := exists_first_eq s.data h
  refine ⟨⟨a⟩, ⟨b⟩, ?_, ha⟩
  apply String.ext
  rw [data_split, hab]

theorem mem_data_split (lhs rhs : String) : '=' ∈ (lhs ++ "=" ++ rhs).data := by
  rw [data_split]; simp

theorem SplitN_split (lhs rhs : String) (h : '=' ∉ lhs.data) :
    SplitN (lhs ++ "=" ++ rhs) = [lhs, rhs] := by
  simp only [SplitN, data_split, span_first_eq _ _ h]

theorem SplitN_no_eq (s : String) (h : '=' ∉ s.data) : SplitN s = [s] := by
  simp only [SplitN, span_no_eq _ h]

theorem predicateAsFunc_split (lhs rhs : String) (h : '=' ∉ lhs.data) :
    predicateAsFunc (lhs ++ "=" ++ rhs) = Except.ok (predicateAsFunc.filter lhs rhs) := by
  simp only [predicateAsFunc, SplitN_split lhs rhs h]

theorem predicateAsFunc_no_eq (s : String) (h : '=' ∉ s.data) :
    predicateAsFunc s = Except.error (GoError.New "predicate parsing error") := by
  simp only [predicateAsFunc, SplitN_no_eq s h]

/-- The filter on a row that names the column and has a value at its position. -/
theorem predicateAsFunc.filter_ok (column value : String) (r : Row)
    (hcol : TrimSpace column ∈ r.ColumnNames)
    (hval : r.ColumnNames.indexOf (TrimSpace column) < r.Values.length) :
    predicateAsFunc.filter column value (some r)
      = Except.ok (satisfies (TrimSpace column) (TrimSpace value) r) := by
  have hidx : index r.Values ((r.ColumnNames.indexOf (TrimSpace column) : Nat) : Int)
      = Except.ok (r.Values.getD (r.ColumnNames.indexOf (TrimSpace column)) "") := by
    have := index_ok r.Values ((r.ColumnNames.indexOf (TrimSpace column) : Nat) : Int)
      ⟨by omega, by omega⟩
    simpa using this
  have hget : r.Values.get? (r.ColumnNames.indexOf (TrimSpace column))
      = some (r.Values.getD (r.ColumnNames.indexOf (TrimSpace column)) "") := by
    rw [List.getD_eq_getElem?_getD]; simp [hval]
  simp only [predicateAsFunc.filter, deref, argin_mem _ _ hcol, hidx, satisfies, hget,
    Option.some.injEq]

/-- The filter on a row that lacks the column panics with the error of `argin`. -/
theorem predicateAsFunc.filter_missing (column value : String) (r : Row)
    (hcol : TrimSpace column ∉ r.ColumnNames) :
    predicateAsFunc.filter column value (some r)
      = Except.error (Panic.error (GoError.New "not found")) := by
  simp only [predicateAsFunc.filter, deref, argin_not_mem _ _ hcol]

theorem Row.valid_hasValue (r : Row) (column : String) (hv : r.valid)
    (hcol : column ∈ r.ColumnNames) : r.ColumnNames.indexOf column < r.Values.length := by
  have := List.indexOf_lt_length.mpr hcol
  unfold Row.valid at hv
  omega

/-- The loop of the transformer of `Predicator` over rows that all name the column. -/
theorem Predicator.range_ok (column value : String) (input : List Row)
    (h : ∀ r ∈ input, TrimSpace column ∈ r.ColumnNames ∧ r.valid) :
    Predicator.range (predicateAsFunc.filter column value) (input.map some)
      = ⟨((input.filter (satisfies (TrimSpace column) (TrimSpace value))).map some).map
          Event.send, input.length, none⟩ := by
  induction input with
  | nil => simp [Predicator.range, Outcome.done]
  | cons r rest ih =>
    have hr := h r (List.mem_cons_self r rest)
    have ih2 := ih fun q hq => h q (List.mem_cons_of_mem r hq)
    have hf := predicateAsFunc.filter_ok column value r hr.1
      (Row.valid_hasValue r _ hr.2 hr.1)
    simp only [List.map_cons, Predicator.range, hf, ih2]
    cases hs : satisfies (TrimSpace column) (TrimSpace value) r
    · simp [Outcome.recv, List.filter_cons, hs]
    · simp [Outcome.recv, Outcome.send, List.filter_cons, hs]

theorem split_unique (lhs rhs lhs2 rhs2 : String)
    (h : lhs ++ "=" ++ rhs = lhs2 ++ "=" ++ rhs2)
    (hl : '=' ∉ lhs.data) (hl2 : '=' ∉ lhs2.data) : lhs = lhs2 ∧ rhs = rhs2 := by
  have h1 := SplitN_split lhs rhs hl
  rw [h, SplitN_split lhs2 rhs2 hl2] at h1
  simp only [List.cons.injEq, and_true] at h1
  exact ⟨h1.1.symm, h1.2.symm⟩

/-- C5: for every predicate string containing `=`, `Predicator` returns a transformer, and
on every finite input of rows of the data model that all name the predicate's column (the
trimmed text before the first `=`) it sends exactly the rows whose value in that column is
the trimmed text after the first `=`, unchanged and in input order, however many they are,
then closes its output: the rows sent are the input filtered by the predicate. -/
theorem Predicator_filters (predicate : String) (h : '=' ∈ predicate.data) :
    ∃ lhs rhs : String, ∃ t : Transformer,
      predicate = lhs ++ "=" ++ rhs ∧ '=' ∉ lhs.data ∧ Predicator predicate = Except.ok t ∧
      ∀ input : List Row, (∀ r ∈ input, TrimSpace lhs ∈ r.ColumnNames ∧ r.valid) →
        t (input.map some)
            = ⟨((input.filter (satisfies (TrimSpace lhs) (TrimSpace rhs))).map some).map
                Event.send ++ [Event.close], input.length, none⟩
          ∧ (t (input.map some)).rows
              = (input.filter (satisfies (TrimSpace lhs) (TrimSpace rhs))).map some := by
  obtain ⟨lhs, rhs, hp, hl⟩ := exists_split predicate h
  refine ⟨lhs, rhs,
    fun input => (Predicator.range (predicateAsFunc.filter lhs rhs) input).thenClose,
    hp, hl, ?_, ?_⟩
  · simp only [Predicator, hp, predicateAsFunc_split lhs rhs hl]
  · intro input hin
    have hrun : (Predicator.range (predicateAsFunc.filter lhs rhs) (input.map some)).thenClose
        = ⟨((input.filter (satisfies (TrimSpace lhs) (TrimSpace rhs))).map some).map
            Event.send ++ [Event.close], input.length, none⟩ := by
      rw [Predicator.range_ok lhs rhs input hin, Outcome.thenClose_ok]
    refine ⟨hrun, ?_⟩
    show Outcome.rows (Outcome.thenClose _) = _
    rw [hrun, Outcome.rows_sends_close]

/-- The predicate `a = 1` on the two example rows yields only the first row. -/
theorem Predicator_filters_witness :
    ∃ t : Transformer, Predicator "a = 1" = Except.ok t ∧
      (t (exampleRows.map some)).rows = [some ⟨["a", "b"], ["1", "2"]⟩] := by
  obtain ⟨lhs, rhs, t, hp, hl, ht, hrun⟩ := Predicator_filters "a = 1" (by decide)
  have hsplit : ("a " : String) ++ "=" ++ " 1" = lhs ++ "=" ++ rhs := by
    rw [← hp]; decide
  obtain ⟨h1, h2⟩ := split_unique "a " " 1" lhs rhs hsplit (by decide) hl
  subst h1 h2
  exact ⟨t, ht, (hrun exampleRows (by decide)).2.trans (by decide)⟩

/-- C6: parsing a predicate fails, in `predicateAsFunc` and so in `Predicator` at
construction, if and only if the string has no `=`; otherwise the string is split at its
first `=` only, and the filter accepts a row that has a value in its column named by the
trimmed left part exactly when that value, as it stands, is string-equal to the trimmed
right part, whatever `=` characters the right part holds. -/
theorem predicateAsFunc_parses (predicate : String) :
    ((∃ err, predicateAsFunc predicate = Except.error err) ↔ '=' ∉ predicate.data)
      ∧ ((∃ p, Predicator predicate = Except.error p) ↔ '=' ∉ predicate.data)
      ∧ ∀ lhs rhs : String, predicate = lhs ++ "=" ++ rhs → '=' ∉ lhs.data →
          ∃ f : Filter, predicateAsFunc predicate = Except.ok f ∧
            ∀ r : Row, TrimSpace lhs ∈ r.ColumnNames →
              r.ColumnNames.indexOf (TrimSpace lhs) < r.Values.length →
              f (some r) = Except.ok (decide
                (r.Values.get? (r.ColumnNames.indexOf (TrimSpace lhs))
                  = some (TrimSpace rhs))) := by
  refine ⟨⟨?_, ?_⟩, ⟨?_, ?_⟩, ?_⟩
  · rintro ⟨err, herr⟩ hmem
    obtain ⟨lhs, rhs, hp, hl⟩ := exists_split predicate hmem
    rw [hp, predicateAsFunc_split lhs rhs hl] at herr
    cases herr
  · intro hno
    exact ⟨_, predicateAsFunc_no_eq predicate hno⟩
  · rintro ⟨p, hp⟩ hmem
    obtain ⟨lhs, rhs, hsplit, hl⟩ := exists_split predicate hmem
    simp only [Predicator, hsplit, predicateAsFunc_split lhs rhs hl] at hp
    cases hp
  · intro hno
    exact ⟨Panic.error (GoError.New "predicate parsing error"),
      by simp only [Predicator, predicateAsFunc_no_eq predicate hno]⟩
  · intro lhs rhs hp hl
    refine ⟨predicateAsFunc.filter lhs rhs, by rw [hp, predicateAsFunc_split lhs rhs hl], ?_⟩
    intro r hcol hval
    rw [predicateAsFunc.filter_ok lhs rhs r hcol hval]
    rfl

/-- The predicate `a = 1=2 ` has the column `a` and the value `1=2`: a row with the value
`1=2` is accepted, a row with the value ` 1=2` is not, and the string `a 1` does not
parse. -/
theorem predicateAsFunc_parses_witness :
    (∃ f : Filter, predicateAsFunc "a = 1=2 " = Except.ok f
        ∧ f (some ⟨["a"], ["1=2"]⟩) = Except.ok true
        ∧ f (some ⟨["a"], [" 1=2"]⟩) = Except.ok false)
      ∧ ∃ err, predicateAsFunc "a 1" = Except.error err := by
  obtain ⟨f, hf, hrun⟩ :=
    (predicateAsFunc_parses "a = 1=2 ").2.2 "a " " 1=2 " (by decide) (by decide)
  refine ⟨⟨f, hf, ?_, ?_⟩, (predicateAsFunc_parses "a 1").1.mpr (by decide)⟩
  · rw [hrun ⟨["a"], ["1=2"]⟩ (by decide) (by decide)]
    exact congrArg Except.ok (by decide)
  · rw [hrun ⟨["a"], [" 1=2"]⟩ (by decide) (by decide)]
    exact congrArg Except.ok (by decide)

/-! ## slice -/

/-- The discard loop of `slice`, entered with `i ≤ from`: it receives `from - i` lines and
leaves the rest when the input has that many, and otherwise receives the whole input and
finds `pending` closed. -/
theorem slice.skip_eq (from_ : Int) (input : List String) (i : Int) (h : i ≤ from_) :
    slice.skip from_ i input
      = if (from_ - i).toNat ≤ input.length
        then ((from_ - i).toNat, some (input.drop (from_ - i).toNat))
        else (input.length, none) := by
  induction input generalizing i with
  | nil =>
    by_cases hi : i = from_
    · simp [slice.skip, hi]
    · have hpos : ¬ (from_ - i).toNat ≤ 0 := by omega
      simp [slice.skip, hi, hpos]
  | cons line rest ih =>
    by_cases hi : i = from_
    · simp [slice.skip, hi]
    · have hstep : (from_ - i).toNat = (from_ - (i + 1)).toNat + 1 := by omega
      simp only [slice.skip, ne_eq, hi, not_false_eq_true, if_true, ih (i + 1) (by omega),
        hstep, List.length_cons, Nat.add_le_add_iff_right, List.drop_succ_cons]
      split <;> rfl

theorem slice_closed_valid (input : List String) (from_ to_ : Int) (hfrom : 0 ≤ from_)
    (hwin : to_ = -1 ∨ from_ < to_) :
    slice Signal.closed input from_ to_
      = if from_.toNat ≤ input.length
        then ⟨none, [], true, from_.toNat, handleLines (input.drop from_.toNat) (to_ - from_)⟩
        else ⟨some (GoError.ExitError "slice beginning not reached" 2), [], true,
          input.length, []⟩ := by
  have h1 : ¬ (to_ ≠ -1 ∧ to_ ≤ from_) := by omega
  have h2 : ¬ from_ < 0 := by omega
  simp only [slice, if_neg h1, if_neg h2, slice.skip_eq from_ input 0 hfrom, sub_zero]
  by_cases hlen : from_.toNat ≤ input.length
  · simp only [if_pos hlen]
  · simp only [if_neg hlen]

/-- C7: for all integers `from` and `to`, `slice` returns the usage error if and only if
`to != -1` and `to <= from`, or `from < 0`; when it does, the source reader was not started
and no line was received or written. -/
theorem slice_usage_error (ret : Signal) (input : List String) (from_ to_ : Int) :
    ((slice ret input from_ to_).err = some GoError.USAGE_ERROR
        ↔ (to_ ≠ -1 ∧ to_ ≤ from_) ∨ from_ < 0)
      ∧ ((to_ ≠ -1 ∧ to_ ≤ from_) ∨ from_ < 0 →
          (slice ret input from_ to_).started = false
            ∧ (slice ret input from_ to_).discarded = 0
            ∧ (slice ret input from_ to_).written = []) := by
  by_cases h1 : to_ ≠ -1 ∧ to_ ≤ from_
  · simp [slice, h1]
  · by_cases h2 : from_ < 0
    · simp [slice, h1, h2]
    · have hno : ¬ ((to_ ≠ -1 ∧ to_ ≤ from_) ∨ from_ < 0) := by
        rintro (h | h)
        · exact h1 h
        · exact h2 h
      refine ⟨⟨fun herr => ?_, fun h => absurd h hno⟩, fun h => absurd h hno⟩
      exfalso
      cases ret with
      | value cause =>
        cases cause <;> simp [slice, h1, h2] at herr
      | closed =>
        rw [slice_closed_valid input from_ to_ (by omega) (by omega)] at herr
        split at herr <;> simp at herr

/-- The window `from = 5`, `to = 3` is refused before the reader is started. -/
theorem slice_usage_error_witness :
    (slice Signal.closed tenLines 5 3).err = some GoError.USAGE_ERROR
      ∧ (slice Signal.closed tenLines 5 3).started = false
      ∧ (slice Signal.closed tenLines 5 3).discarded = 0
      ∧ (slice Signal.closed tenLines 5 3).written = [] :=
  ⟨(slice_usage_error Signal.closed tenLines 5 3).1.mpr (by decide),
   (slice_usage_error Signal.closed tenLines 5 3).2 (by decide)⟩

/-- C8: for every bounded window `0 <= from < to` and every input of at least `from` lines
whose reader closes its signal without an error, `slice` returns nil, discards exactly the
first `from` lines and writes `input[from : min(to, len(input))]`, which is the first
`to - from` of the lines after them, or fewer when the input ends before. -/
theorem slice_bounded_window (input : List String) (f t : Nat) (hft : f < t)
    (hlen : f ≤ input.length) :
    slice Signal.closed input (f : Int) (t : Int)
        = ⟨none, [], true, f, (input.take (min t input.length)).drop f⟩
      ∧ (slice Signal.closed input (f : Int) (t : Int)).written
          = (input.drop f).take (t - f)
      ∧ (slice Signal.closed input (f : Int) (t : Int)).written.length
          = min (t - f) (input.length - f) := by
  have hrun := slice_closed_valid input (f : Int) (t : Int) (by omega) (Or.inr (by omega))
  have hsub : ((t : Int) - (f : Int)).toNat = t - f := by omega
  have hneg : ¬ ((t : Int) - (f : Int) < 0) := by omega
  simp only [Int.toNat_ofNat, if_pos hlen, handleLines, if_neg hneg, hsub] at hrun
  have htake : (input.take (min t input.length)).drop f = (input.drop f).take (t - f) := by
    rw [List.drop_take]
    rcases Nat.le_total t input.length with h | h
    · rw [Nat.min_eq_left h]
    · rw [Nat.min_eq_right h, List.take_of_length_le (by simp),
        List.take_of_length_le (by simp; omega)]
  rw [hrun, htake]
  refine ⟨rfl, rfl, ?_⟩
  simp [List.length_take, List.length_drop]

/-- The window `from = 3`, `to = 6` on ten lines writes `r3`, `r4`, `r5`. -/
theorem slice_bounded_window_witness :
    (slice Signal.closed tenLines 3 6).written = ["r3", "r4", "r5"]
      ∧ (slice Signal.closed tenLines 3 6).err = none :=
  ⟨(slice_bounded_window tenLines 3 6 (by decide) (by decide)).2.1.trans (by decide),
   congrArg SliceResult.err (slice_bounded_window tenLines 3 6 (by decide) (by decide)).1⟩

/-- C9: for `to == -1` and every `from >= 0`, on every input of at least `from` lines whose
reader closes its signal without an error, `slice` returns nil and writes every line after
the first `from`, that is `input[from:]`; the count `-1 - from` it hands to the writing
stage is negative, which that stage takes as unbounded. -/
theorem slice_unbounded_window (input : List String) (f : Nat) (hlen : f ≤ input.length) :
    slice Signal.closed input (f : Int) (-1) = ⟨none, [], true, f, input.drop f⟩
      ∧ (slice Signal.closed input (f : Int) (-1)).written
          = handleLines (input.drop f) (-1 - (f : Int))
      ∧ (-1 - (f : Int) < 0)
      ∧ ∀ pending : List String, handleLines pending (-1 - (f : Int)) = pending := by
  have hrun := slice_closed_valid input (f : Int) (-1) (by omega) (Or.inl rfl)
  have hneg : (-1 : Int) - (f : Int) < 0 := by omega
  have hall : ∀ pending : List String, handleLines pending (-1 - (f : Int)) = pending :=
    fun pending => by simp only [handleLines, if_pos hneg]
  simp only [Int.toNat_ofNat, if_pos hlen] at hrun
  refine ⟨by rw [hrun, hall], by rw [hrun], hneg, hall⟩

/-- The window `from = 3`, `to = -1` on ten lines writes `r3` to `r9`. -/
theorem slice_unbounded_window_witness :
    (slice Signal.closed tenLines 3 (-1)).written
      = ["r3", "r4", "r5", "r6", "r7", "r8", "r9"] :=
  (congrArg SliceResult.written (slice_unbounded_window tenLines 3 (by decide)).1).trans
    (by decide)

/-- C10: for every valid window (`from >= 0`, and `to == -1` or `to > from`) and every
input whose reader closes its signal without an error, `slice` returns the error
`slice beginning not reached` if and only if the input has fewer than `from` lines; on an
input of exactly `from` lines it returns nil and writes nothing; and that error is not the
usage error. -/
theorem slice_beginning_not_reached (input : List String) (f : Nat) (to_ : Int)
    (hwin : to_ = -1 ∨ (f : Int) < to_) :
    ((slice Signal.closed input (f : Int) to_).err
          = some (GoError.ExitError "slice beginning not reached" 2)
        ↔ input.length < f)
      ∧ (input.length < f → (slice Signal.closed input (f : Int) to_).written = []
          ∧ (slice Signal.closed input (f : Int) to_).discarded = input.length)
      ∧ (input.length = f → (slice Signal.closed input (f : Int) to_).err = none
          ∧ (slice Signal.closed input (f : Int) to_).written = []
          ∧ (slice Signal.closed input (f : Int) to_).discarded = f)
      ∧ (f ≤ input.length → (slice Signal.closed input (f : Int) to_).err = none)
      ∧ GoError.ExitError "slice beginning not reached" 2 ≠ GoError.USAGE_ERROR := by
  have hrun := slice_closed_valid input (f : Int) to_ (by omega) hwin
  simp only [Int.toNat_ofNat] at hrun
  refine ⟨?_, ?_, ?_, ?_, by decide⟩
  · by_cases hlen : f ≤ input.length
    · rw [hrun, if_pos hlen]
      simp only [reduceCtorEq, false_iff, not_lt]
      exact hlen
    · rw [hrun, if_neg hlen]
      simp only [true_iff]
      omega
  · intro hlt
    rw [hrun, if_neg (by omega)]
    exact ⟨rfl, rfl⟩
  · intro heq
    rw [hrun, if_pos (by omega)]
    refine ⟨rfl, ?_, rfl⟩
    have hnil : input.drop f = [] := List.drop_eq_nil_of_le (by omega)
    simp only [hnil, handleLines, List.take_nil, ite_self]
  · intro hle
    rw [hrun, if_pos hle]

/-- The window `from = 20`, `to = -1` on five lines returns the error, and the window
`from = 5`, `to = -1` on five lines returns nil with nothing written. -/
theorem slice_beginning_not_reached_witness :
    (slice Signal.closed fiveLines 20 (-1)).err
        = some (GoError.ExitError "slice beginning not reached" 2)
      ∧ (slice Signal.closed fiveLines 5 (-1)).err = none
      ∧ (slice Signal.closed fiveLines 5 (-1)).written = [] :=
  ⟨(slice_beginning_not_reached fiveLines 20 (-1) (Or.inl rfl)).1.mpr (by decide),
   ((slice_beginning_not_reached fiveLines 5 (-1) (Or.inl rfl)).2.2.1 (by decide)).1,
   ((slice_beginning_not_reached fiveLines 5 (-1) (Or.inl rfl)).2.2.1 (by decide)).2.1⟩

/-! ## IdentityTransformer -/

theorem IdentityTransformer.range_sends_all (input : List Ptr) :
    IdentityTransformer.range input = ⟨input.map Event.send, input.length, none⟩ := by
  induction input with
  | nil => rfl
  | cons row rest ih => simp [IdentityTransformer.range, ih, Outcome.recv, Outcome.send]

theorem IdentityTransformer_eq (input : List Ptr) :
    IdentityTransformer input
      = ⟨input.map Event.send ++ [Event.close], input.length, none⟩ := by
  simp [IdentityTransformer, IdentityTransformer.range_sends_all, Outcome.thenClose_ok]

/-- C11: on every finite input `IdentityTransformer` sends every row unchanged and in
order, then closes its output, so the rows it sends are its input; run on the rows a
first `IdentityTransformer` sent, it sends the same rows again. -/
theorem IdentityTransformer_idempotent (input : List Ptr) :
    IdentityTransformer input
        = ⟨input.map Event.send ++ [Event.close], input.length, none⟩
      ∧ (IdentityTransformer input).rows = input
      ∧ (IdentityTransformer (IdentityTransformer input).rows).rows
          = (IdentityTransformer input).rows := by
  have h : ∀ l : List Ptr, (IdentityTransformer l).rows = l := fun l => by
    rw [IdentityTransformer_eq, Outcome.rows_sends_close]
  exact ⟨IdentityTransformer_eq input, h input, h _⟩

/-! ## ColumnStringSelector on an empty stream -/

/-- C15: for every list of column names, `ColumnStringSelector` on an empty input stream
closes its output, having sent no row, received nothing and raised no panic. -/
theorem ColumnStringSelector_empty (columns : List String) :
    ColumnStringSelector columns [] = ⟨[Event.close], 0, none⟩
      ∧ (ColumnStringSelector columns []).rows = []
      ∧ (ColumnStringSelector columns []).closes = 1
      ∧ (ColumnStringSelector columns []).panic = none := by
  refine ⟨rfl, rfl, ?_, rfl⟩
  simp [ColumnStringSelector, Outcome.thenClose, Outcome.done, Outcome.closes]

/-! ## RowLimiter: the early stop and the limits that never stop -/

/-- C18: for every `n >= 1` and every input of more than `n` rows, `RowLimiter(n)` sends
the first `n` rows and closes its output; it has then received exactly `n` rows, and its
whole run is the same whatever follows the `n`-th row on the input. -/
theorem RowLimiter_stops_early (n : Nat) (input : List Ptr) (hn : 1 ≤ n)
    (hlen : n < input.length) :
    RowLimiter (n : Int) input
        = ⟨(input.take n).map Event.send ++ [Event.close], n, none⟩
      ∧ (RowLimiter (n : Int) input).rows = input.take n
      ∧ (RowLimiter (n : Int) input).rows.length = n
      ∧ (RowLimiter (n : Int) input).taken = n
      ∧ (RowLimiter (n : Int) input).taken < input.length
      ∧ ∀ later : List Ptr,
          RowLimiter (n : Int) (input.take n ++ later) = RowLimiter (n : Int) input := by
  have hrun : ∀ l : List Ptr, n ≤ l.length →
      RowLimiter (n : Int) l = ⟨(l.take n).map Event.send ++ [Event.close], n, none⟩ := by
    intro l hl
    rw [RowLimiter_pos (n : Int) l (by omega)]
    simp only [Int.toNat_ofNat, Nat.min_eq_left hl]
  have h := hrun input (by omega)
  refine ⟨h, ?_, ?_, ?_, ?_, ?_⟩
  · rw [h, Outcome.rows_sends_close]
  · rw [h, Outcome.rows_sends_close, List.length_take]; omega
  · rw [h]
  · rw [h]; exact hlen
  · intro later
    have hl : n ≤ (input.take n ++ later).length := by
      rw [List.length_append, List.length_take]; omega
    rw [hrun _ hl, h]
    have ht : (input.take n ++ later).take n = input.take n := by
      rw [List.take_append_of_le_length (by rw [List.length_take]; omega), List.take_take]
      simp
    rw [ht]

/-- The limit `1` on the two example rows: the first row is sent and the second is left
unread. -/
theorem RowLimiter_stops_early_witness :
    (RowLimiter 1 (exampleRows.map some)).rows = [some ⟨["a", "b"], ["1", "2"]⟩]
      ∧ (RowLimiter 1 (exampleRows.map some)).taken = 1 :=
  ⟨(RowLimiter_stops_early 1 (exampleRows.map some) (by decide) (by decide)).2.1.trans
      (by decide),
   (RowLimiter_stops_early 1 (exampleRows.map some) (by decide) (by decide)).2.2.2.1⟩

/-- C19: for every `n <= 0` and every finite input, `RowLimiter(n)` never stops early: it
receives the whole input, sends every row in order and then closes its output. -/
theorem RowLimiter_nonpos_forwards_all (n : Int) (input : List Ptr) (hn : n ≤ 0) :
    RowLimiter n input = ⟨input.map Event.send ++ [Event.close], input.length, none⟩
      ∧ (RowLimiter n input).rows = input
      ∧ (RowLimiter n input).taken = input.length
      ∧ ∀ count : Int, 0 ≤ count →
          RowLimiter.range n count input = ⟨input.map Event.send, input.length, none⟩ := by
  have h := RowLimiter_nonpos n input hn
  refine ⟨h, by rw [h, Outcome.rows_sends_close], by rw [h], ?_⟩
  intro count hc
  exact RowLimiter.range_ge n input count (by omega)

/-- The limit `-3` on the two example rows sends both rows. -/
theorem RowLimiter_nonpos_forwards_all_witness :
    (RowLimiter (-3) (exampleRows.map some)).rows = exampleRows.map some :=
  (RowLimiter_nonpos_forwards_all (-3) (exampleRows.map some) (by decide)).2.1

/-! ## argin: the leftmost match -/

theorem get?_indexOf (args : List String) (m : String) (h : m ∈ args) :
    args.get? (args.indexOf m) = some m := by
  have hlt : args.indexOf m < args.length := List.indexOf_lt_length.mpr h
  have hget : args.get? (args.indexOf m) = some (args.getD (args.indexOf m) "") := by
    rw [List.getD_eq_getElem?_getD]; simp [hlt]
  rw [hget, getD_indexOf args m h]

theorem get?_before_indexOf (args : List String) (m : String) (k : Nat)
    (hk : k < args.indexOf m) : args.get? k ≠ some m := by
  induction args generalizing k with
  | nil => simp
  | cons a rest ih =>
    by_cases ha : a = m
    · have h0 : (a :: rest).indexOf m = 0 := by simp [List.indexOf_cons, ha]
      omega
    · have hb : (a == m) = false := by simpa using ha
      have hstep : (a :: rest).indexOf m = rest.indexOf m + 1 := by
        simp [List.indexOf_cons, hb]
      cases k with
      | zero => simpa using ha
      | succ j =>
        have hj : j < rest.indexOf m := by omega
        simpa using ih j hj

/-- C20: `argin(args, m)` returns the smallest index at which `m` stands in `args`, with a
nil error, when `m` occurs in `args`, and returns `-1` with an error if and only if `m`
does not occur; hence the name resolution of `ColumnStringSelector` and the filter of
`predicateAsFunc` use the leftmost column of the requested name. -/
theorem argin_leftmost (args : List String) (m : String) :
    (m ∈ args →
        argin args m = (((args.indexOf m : Nat) : Int), none)
          ∧ args.get? (args.indexOf m) = some m
          ∧ ∀ k : Nat, k < args.indexOf m → args.get? k ≠ some m)
      ∧ (argin args m = (-1, some (GoError.New "not found")) ↔ m ∉ args)
      ∧ ((argin args m).1 = -1 ↔ m ∉ args)
      ∧ ((argin args m).2 ≠ none ↔ m ∉ args)
      ∧ (∀ (row : Row) (columns : List String), args = row.ColumnNames →
          (∀ c ∈ columns, c ∈ args) →
          ColumnStringSelector.indices row columns
            = Except.ok (columns.map fun c => ((args.indexOf c : Nat) : Int)))
      ∧ (∀ (row : Row) (column value : String), args = row.ColumnNames →
          m = TrimSpace column → m ∈ args → args.indexOf m < row.Values.length →
          predicateAsFunc.filter column value (some row)
            = Except.ok (decide (row.Values.get? (args.indexOf m)
                = some (TrimSpace value)))) := by
  have hyes : m ∈ args → argin args m = (((args.indexOf m : Nat) : Int), none) :=
    argin_mem m args
  have hno : m ∉ args → argin args m = (-1, some (GoError.New "not found")) :=
    argin_not_mem m args
  refine ⟨fun h => ⟨hyes h, get?_indexOf args m h, fun k hk => get?_before_indexOf args m k hk⟩,
    ⟨?_, hno⟩, ⟨?_, ?_⟩, ⟨?_, ?_⟩, ?_, ?_⟩
  · intro heq hmem
    rw [hyes hmem] at heq
    simp at heq
  · intro heq hmem
    rw [hyes hmem] at heq
    simp only at heq
    omega
  · intro h
    rw [hno h]
  · intro hne hmem
    rw [hyes hmem] at hne
    exact hne rfl
  · intro h
    rw [hno h]
    simp
  · intro row columns hargs hcols
    subst hargs
    exact ColumnStringSelector.indices_ok row columns hcols
  · intro row column value hargs hm hmem hval
    subst hargs
    subst hm
    rw [predicateAsFunc.filter_ok column value row hmem hval]
    rfl

/-- On a row with two columns `a` holding `1` and `2`, `argin` answers `0`, the selection
of `a` gives `1`, and the filter accepts the value `1` and not the value `2`. -/
theorem argin_leftmost_witness :
    argin ["a", "a"] "a" = (0, none)
      ∧ ColumnStringSelector.indices twinRow ["a"] = Except.ok [0]
      ∧ predicateAsFunc.filter "a" "1" (some twinRow) = Except.ok true
      ∧ predicateAsFunc.filter "a" "2" (some twinRow) = Except.ok false :=
  ⟨((argin_leftmost ["a", "a"] "a").1 (by decide)).1,
   (argin_leftmost ["a", "a"] "a").2.2.2.2.1 twinRow ["a"] rfl (by decide),
   ((argin_leftmost ["a", "a"] "a").2.2.2.2.2 twinRow "a" "1" rfl (by decide) (by decide)
      (by decide)).trans (congrArg Except.ok (by decide)),
   ((argin_leftmost ["a", "a"] "a").2.2.2.2.2 twinRow "a" "2" rfl (by decide) (by decide)
      (by decide)).trans (congrArg Except.ok (by decide))⟩

/-! ## ColumnIntSelector: indices out of range -/

theorem Outcome.thenClose_panic (o : Outcome) : o.thenClose.panic = o.panic := by
  unfold Outcome.thenClose
  cases h : o.panic <;> simp

theorem index_eq_ok (xs : List String) (j : Int) (x : String)
    (h : index xs j = Except.ok x) : 0 ≤ j ∧ j < xs.length := by
  unfold index at h
  by_cases hneg : j < 0
  · simp [hneg] at h
  · simp only [if_neg hneg] at h
    by_contra hcon
    have hnone : xs.get? j.toNat = none := List.get?_eq_none.mpr (by omega)
    rw [hnone] at h
    cases h

theorem index_eq_error (xs : List String) (j : Int) (p : Panic)
    (h : index xs j = Except.error p) : p = Panic.indexOutOfRange j xs.length := by
  unfold index at h
  by_cases hneg : j < 0
  · simp only [if_pos hneg, Except.error.injEq] at h
    exact h.symm
  · simp only [if_neg hneg] at h
    cases hget : xs.get? j.toNat with
    | none =>
      simp only [hget, Except.error.injEq] at h
      exact h.symm
    | some x =>
      rw [hget] at h
      cases h

theorem index_length (xs : List String) :
    index xs (xs.length : Int)
      = Except.error (Panic.indexOutOfRange (xs.length : Int) xs.length) := by
  cases h : index xs (xs.length : Int) with
  | error p => rw [index_eq_error xs _ p h]
  | ok x =>
    have := index_eq_ok xs _ x h
    omega

/-- The loop over the first row passes the indices that are in range. -/
theorem ColumnIntSelector.names_append (r : Row) (pre tail : List Int)
    (colnames : List String) (h : ∀ j ∈ pre, 0 ≤ j ∧ j < r.ColumnNames.length) :
    ColumnIntSelector.names (some r) colnames (pre ++ tail)
      = ColumnIntSelector.names (some r) (colnames ++ pick r.ColumnNames pre) tail := by
  induction pre generalizing colnames with
  | nil => simp [pick]
  | cons j rest ih =>
    have hj := h j (List.mem_cons_self j rest)
    have hgt : ¬ j > r.ColumnNames.length := by omega
    simp only [List.cons_append, ColumnIntSelector.names, deref, if_neg hgt,
      index_ok _ _ hj, List.append_eq]
    rw [ih _ fun k hk => h k (List.mem_cons_of_mem j hk)]
    simp [pick]

/-- The loop over the first row panics when some index is at or past the number of column
names, and not with an error value. -/
theorem ColumnIntSelector.names_out_of_range (r : Row) (idx : List Int)
    (colnames : List String) (h : ∃ j ∈ idx, (r.ColumnNames.length : Int) ≤ j) :
    ∃ p, ColumnIntSelector.names (some r) colnames idx = Except.error p
      ∧ p.fromError = false := by
  induction idx generalizing colnames with
  | nil =>
    obtain ⟨j, hj, _⟩ := h
    simp at hj
  | cons j rest ih =>
    simp only [ColumnIntSelector.names, deref]
    by_cases hgt : j > r.ColumnNames.length
    · exact ⟨Panic.indexExceeds j r.ColumnNames.length, by simp only [if_pos hgt], rfl⟩
    · simp only [if_neg hgt]
      cases hidx : index r.ColumnNames j with
      | error p =>
        refine ⟨p, rfl, ?_⟩
        rw [index_eq_error _ _ p hidx]
        rfl
      | ok name =>
        have hin := index_eq_ok _ _ name hidx
        apply ih
        obtain ⟨k, hk, hlen⟩ := h
        rcases List.mem_cons.mp hk with h1 | h1
        · subst h1
          omega
        · exact ⟨k, h1, hlen⟩

theorem ColumnIntSelector_first_names_error (idx : List Int) (first : Row) (rest : List Ptr)
    (p : Panic) (h : ColumnIntSelector.names (some first) [] idx = Except.error p) :
    ColumnIntSelector idx (some first :: rest) = ⟨[], 1, some p⟩ := by
  simp only [ColumnIntSelector, ColumnIntSelector.range, if_true, h]
  rfl

/-- C12: for every non-empty input and every index list holding an index at or past the
number of column names of the first row, `ColumnIntSelector` panics while it processes
the first row, having sent no row and not closed its output.  When the first index out of
range equals that number the panic is the run-time one of the index expression, and when
it is greater the panic is the one of the guard. -/
theorem ColumnIntSelector_out_of_range (idx : List Int) (first : Row) (rest : List Row)
    (h : ∃ j ∈ idx, (first.ColumnNames.length : Int) ≤ j) :
    (∃ p, ColumnIntSelector idx ((first :: rest).map some) = ⟨[], 1, some p⟩
        ∧ p.fromError = false)
      ∧ (ColumnIntSelector idx ((first :: rest).map some)).rows = []
      ∧ (ColumnIntSelector idx ((first :: rest).map some)).closes = 0
      ∧ (ColumnIntSelector idx ((first :: rest).map some)).panic ≠ none
      ∧ (∀ (pre post : List Int) (j : Int), idx = pre ++ j :: post →
          (∀ i ∈ pre, 0 ≤ i ∧ i < first.ColumnNames.length) →
          (j = first.ColumnNames.length →
            ColumnIntSelector idx ((first :: rest).map some)
              = ⟨[], 1, some (Panic.indexOutOfRange j first.ColumnNames.length)⟩)
          ∧ (j > first.ColumnNames.length →
            ColumnIntSelector idx ((first :: rest).map some)
              = ⟨[], 1, some (Panic.indexExceeds j first.ColumnNames.length)⟩)) := by
  obtain ⟨p, hp, hfrom⟩ := ColumnIntSelector.names_out_of_range first idx [] h
  have hrun := ColumnIntSelector_first_names_error idx first (rest.map some) p hp
  rw [List.map_cons]
  refine ⟨⟨p, hrun, hfrom⟩, by rw [hrun]; rfl, by rw [hrun]; rfl, by rw [hrun]; simp, ?_⟩
  intro pre post j hidx hpre
  subst hidx
  have hsplit := ColumnIntSelector.names_append first pre (j :: post) [] hpre
  refine ⟨fun hj => ?_, fun hj => ?_⟩
  · apply ColumnIntSelector_first_names_error
    rw [hsplit]
    have hgt : ¬ j > first.ColumnNames.length := by omega
    simp only [ColumnIntSelector.names, deref, if_neg hgt]
    rw [hj, index_length]
  · apply ColumnIntSelector_first_names_error
    rw [hsplit]
    simp only [ColumnIntSelector.names, deref, if_pos hj]

/-- The index `2` on rows of two columns: the run panics on the first row with the
run-time index panic, and nothing is sent. -/
theorem ColumnIntSelector_out_of_range_witness :
    ColumnIntSelector [0, 2] (exampleRows.map some)
        = ⟨[], 1, some (Panic.indexOutOfRange 2 2)⟩
      ∧ (ColumnIntSelector [0, 2] (exampleRows.map some)).rows = [] :=
  ⟨((ColumnIntSelector_out_of_range [0, 2] ⟨["a", "b"], ["1", "2"]⟩
      [⟨["a", "b"], ["3", "4"]⟩] (by decide)).2.2.2.2 [0] [] 2 rfl (by decide)).1 rfl,
   (ColumnIntSelector_out_of_range [0, 2] ⟨["a", "b"], ["1", "2"]⟩
      [⟨["a", "b"], ["3", "4"]⟩] (by decide)).2.1⟩

/-! ## The panics and the events of a ColumnIntSelector run -/

theorem deref_eq_error (row : Ptr) (p : Panic) (h : deref row = Except.error p) :
    p = Panic.nilDereference := by
  cases row with
  | none =>
    simp only [deref, Except.error.injEq] at h
    exact h.symm
  | some r => simp [deref] at h

theorem ColumnIntSelector.names_error (row : Ptr) (idx : List Int) (colnames : List String)
    (p : Panic) (h : ColumnIntSelector.names row colnames idx = Except.error p) :
    p.fromError = false := by
  induction idx generalizing colnames with
  | nil => simp [ColumnIntSelector.names] at h
  | cons j rest ih =>
    simp only [ColumnIntSelector.names] at h
    cases hd : deref row with
    | error q =>
      rw [hd] at h
      simp only [Except.error.injEq] at h
      rw [← h, deref_eq_error row q hd]
      rfl
    | ok r =>
      rw [hd] at h
      simp only at h
      by_cases hgt : j > r.ColumnNames.length
      · simp only [if_pos hgt, Except.error.injEq] at h
        rw [← h]
        rfl
      · simp only [if_neg hgt] at h
        cases hi : index r.ColumnNames j with
        | error q =>
          rw [hi] at h
          simp only [Except.error.injEq] at h
          rw [← h, index_eq_error _ _ q hi]
          rfl
        | ok name =>
          rw [hi] at h
          exact ih _ h

theorem ColumnIntSelector.values_error (row : Ptr) (idx : List Int) (p : Panic)
    (h : ColumnIntSelector.values row idx = Except.error p) : p.fromError = false := by
  induction idx with
  | nil => simp [ColumnIntSelector.values] at h
  | cons j rest ih =>
    simp only [ColumnIntSelector.values] at h
    cases hd : deref row with
    | error q =>
      rw [hd] at h
      simp only [Except.error.injEq] at h
      rw [← h, deref_eq_error row q hd]
      rfl
    | ok r =>
      rw [hd] at h
      simp only at h
      cases hi : index r.Values j with
      | error q =>
        rw [hi] at h
        simp only [Except.error.injEq] at h
        rw [← h, index_eq_error _ _ q hi]
        rfl
      | ok v =>
        rw [hi] at h
        simp only at h
        cases hv : ColumnIntSelector.values row rest with
        | error q =>
          rw [hv] at h
          simp only [Except.error.injEq] at h
          subst h
          exact ih hv
        | ok vs =>
          rw [hv] at h
          simp at h

/-- One turn of the loop of `ColumnIntSelector`: it panics, not with an error value, or it
sends one row and goes on with `first` false. -/
theorem ColumnIntSelector.range_cons_cases (idx : List Int) (colnames : List String)
    (first : Bool) (row : Ptr) (rest : List Ptr) :
    (∃ p, p.fromError = false
        ∧ ColumnIntSelector.range idx colnames first (row :: rest) = ⟨[], 1, some p⟩)
      ∨ ∃ (names values : List String),
          ColumnIntSelector.range idx colnames first (row :: rest)
            = Outcome.recv (Outcome.send (some ⟨names, values⟩)
                (ColumnIntSelector.range idx names false rest)) := by
  have hvalues : ∀ names : List String,
      (∃ p, p.fromError = false
        ∧ Outcome.recv (match ColumnIntSelector.values row idx with
            | Except.error p => Outcome.raise p
            | Except.ok values => Outcome.send (some ⟨names, values⟩)
                (ColumnIntSelector.range idx names false rest)) = ⟨[], 1, some p⟩)
      ∨ ∃ (names2 values : List String),
          Outcome.recv (match ColumnIntSelector.values row idx with
            | Except.error p => Outcome.raise p
            | Except.ok values => Outcome.send (some ⟨names, values⟩)
                (ColumnIntSelector.range idx names false rest))
            = Outcome.recv (Outcome.send (some ⟨names2, values⟩)
                (ColumnIntSelector.range idx names2 false rest)) := by
    intro names
    cases hv : ColumnIntSelector.values row idx with
    | error p => exact Or.inl ⟨p, ColumnIntSelector.values_error row idx p hv, rfl⟩
    | ok values => exact Or.inr ⟨names, values, rfl⟩
  cases first with
  | false =>
    simp only [ColumnIntSelector.range, Bool.false_eq_true, if_false]
    exact hvalues colnames
  | true =>
    simp only [ColumnIntSelector.range, if_true]
    cases hn : ColumnIntSelector.names row colnames idx with
    | error p => exact Or.inl ⟨p, ColumnIntSelector.names_error row idx colnames p hn, rfl⟩
    | ok names => exact hvalues names

/-- The loop of `ColumnIntSelector` only sends, and never panics with an error value. -/
theorem ColumnIntSelector.range_inv (idx : List Int) (input : List Ptr)
    (colnames : List String) (first : Bool) :
    (∃ sent : List Ptr,
        (ColumnIntSelector.range idx colnames first input).events = sent.map Event.send)
      ∧ ∀ p, (ColumnIntSelector.range idx colnames first input).panic = some p →
          p.fromError = false := by
  induction input generalizing colnames first with
  | nil => exact ⟨⟨[], rfl⟩, fun p hp => by simp [ColumnIntSelector.range, Outcome.done] at hp⟩
  | cons row rest ih =>
    rcases ColumnIntSelector.range_cons_cases idx colnames first row rest with
      ⟨p, hp, hrun⟩ | ⟨names, values, hrun⟩
    · rw [hrun]
      refine ⟨⟨[], rfl⟩, fun q hq => ?_⟩
      simp only [Option.some.injEq] at hq
      rw [← hq]
      exact hp
    · rw [hrun]
      obtain ⟨⟨sent, hsent⟩, hpanic⟩ := ih names false
      refine ⟨⟨some ⟨names, values⟩ :: sent, ?_⟩, fun q hq => hpanic q hq⟩
      simp only [Outcome.recv, Outcome.send, hsent, List.map_cons]

theorem ColumnIntSelector_panic_fromError (idx : List Int) (input : List Ptr) (p : Panic)
    (h : (ColumnIntSelector idx input).panic = some p) : p.fromError = false := by
  rw [ColumnIntSelector, Outcome.thenClose_panic] at h
  exact (ColumnIntSelector.range_inv idx input [] true).2 p h

/-! ## ColumnStringSelector: a requested name that is missing -/

/-- Name resolution panics with the error of `argin` when some requested column is not
among the names of the row. -/
theorem ColumnStringSelector.indices_missing (row : Row) (columns : List String)
    (h : ∃ c ∈ columns, c ∉ row.ColumnNames) :
    ColumnStringSelector.indices row columns
      = Except.error (Panic.error (GoError.New "not found")) := by
  induction columns with
  | nil =>
    obtain ⟨c, hc, _⟩ := h
    simp at hc
  | cons c rest ih =>
    by_cases hc : c ∈ row.ColumnNames
    · have hrest : ∃ d ∈ rest, d ∉ row.ColumnNames := by
        obtain ⟨d, hd, hmiss⟩ := h
        rcases List.mem_cons.mp hd with h1 | h1
        · subst h1
          exact absurd hc hmiss
        · exact ⟨d, h1, hmiss⟩
      simp only [ColumnStringSelector.indices, argin_mem c _ hc, ih hrest]
    · simp only [ColumnStringSelector.indices, argin_not_mem c _ hc]

theorem ColumnStringSelector_missing (columns : List String) (first : Row) (rest : List Ptr)
    (h : ∃ c ∈ columns, c ∉ first.ColumnNames) :
    ColumnStringSelector columns (some first :: rest)
      = ⟨[], 1, some (Panic.error (GoError.New "not found"))⟩ := by
  simp only [ColumnStringSelector, ColumnStringSelector.indices_missing first columns h]
  rfl

theorem ColumnStringSelector_present (columns : List String) (first : Row) (rest : List Ptr)
    (h : ∀ c ∈ columns, c ∈ first.ColumnNames) :
    ColumnStringSelector columns (some first :: rest)
      = ColumnIntSelector (positions first.ColumnNames columns) (some first :: rest) := by
  simp only [ColumnStringSelector, ColumnStringSelector.indices_ok first columns h]

/-- C13: for every non-empty input, `ColumnStringSelector(columns)` fails in its name
resolution, with the panic on the error of `argin`, if and only if some requested name
does not occur among the column names of the first row; when it does, it has sent no
row, has not closed its output and has received exactly one row. -/
theorem ColumnStringSelector_resolution_fails (columns : List String) (first : Row)
    (rest : List Row) :
    ((∃ p, ColumnStringSelector.indices first columns = Except.error p)
        ↔ ∃ c ∈ columns, c ∉ first.ColumnNames)
      ∧ ((∃ e, (ColumnStringSelector columns ((first :: rest).map some)).panic
            = some (Panic.error e))
          ↔ ∃ c ∈ columns, c ∉ first.ColumnNames)
      ∧ ((∃ c ∈ columns, c ∉ first.ColumnNames) →
          ColumnStringSelector columns ((first :: rest).map some)
              = ⟨[], 1, some (Panic.error (GoError.New "not found"))⟩
            ∧ (ColumnStringSelector columns ((first :: rest).map some)).rows = []
            ∧ (ColumnStringSelector columns ((first :: rest).map some)).closes = 0
            ∧ (ColumnStringSelector columns ((first :: rest).map some)).taken = 1) := by
  rw [List.map_cons]
  have hmiss : (∃ c ∈ columns, c ∉ first.ColumnNames) →
      ColumnStringSelector columns (some first :: rest.map some)
        = ⟨[], 1, some (Panic.error (GoError.New "not found"))⟩ :=
    ColumnStringSelector_missing columns first (rest.map some)
  refine ⟨⟨?_, fun h => ⟨_, ColumnStringSelector.indices_missing first columns h⟩⟩,
    ⟨?_, fun h => ⟨GoError.New "not found", by rw [hmiss h]⟩⟩, ?_⟩
  · rintro ⟨p, hp⟩
    by_contra hall
    have hpresent : ∀ c ∈ columns, c ∈ first.ColumnNames := by
      intro c hc
      by_contra hcon
      exact hall ⟨c, hc, hcon⟩
    rw [ColumnStringSelector.indices_ok first columns hpresent] at hp
    cases hp
  · rintro ⟨e, he⟩
    by_contra hall
    have hpresent : ∀ c ∈ columns, c ∈ first.ColumnNames := by
      intro c hc
      by_contra hcon
      exact hall ⟨c, hc, hcon⟩
    rw [ColumnStringSelector_present columns first _ hpresent] at he
    have := ColumnIntSelector_panic_fromError _ _ _ he
    simp [Panic.fromError] at this
  · intro h
    rw [hmiss h]
    exact ⟨rfl, rfl, rfl, rfl⟩

/-- The columns `a`, `z` on the two example rows: `z` is not a column, the run panics
after one row and sends nothing. -/
theorem ColumnStringSelector_resolution_fails_witness :
    ColumnStringSelector ["a", "z"] (exampleRows.map some)
        = ⟨[], 1, some (Panic.error (GoError.New "not found"))⟩
      ∧ (ColumnStringSelector ["a", "z"] (exampleRows.map some)).taken = 1 :=
  ⟨((ColumnStringSelector_resolution_fails ["a", "z"] ⟨["a", "b"], ["1", "2"]⟩
      [⟨["a", "b"], ["3", "4"]⟩]).2.2 (by decide)).1,
   ((ColumnStringSelector_resolution_fails ["a", "z"] ⟨["a", "b"], ["1", "2"]⟩
      [⟨["a", "b"], ["3", "4"]⟩]).2.2 (by decide)).2.2.2⟩

/-! ## Predicator: a row without the column -/

theorem Outcome.rows_sends (sent : List Ptr) (taken : Nat) (panic : Option Panic) :
    (Outcome.mk (sent.map Event.send) taken panic).rows = sent := by
  have h := Outcome.rows_mk_sends sent [] taken panic
  simp only [List.append_nil] at h
  rw [h]
  simp [Outcome.rows]

theorem count_close_sends (sent : List Ptr) :
    (sent.map Event.send).count Event.close = 0 := by
  induction sent with
  | nil => rfl
  | cons row rest ih => simp [List.count_cons, ih]

/-- A list with an element failing a test splits at the first such element. -/
theorem exists_first_failing (P : Row → Prop) (l : List Row) (h : ∃ r ∈ l, ¬ P r) :
    ∃ (pre : List Row) (bad : Row) (post : List Row),
      l = pre ++ bad :: post ∧ (∀ r ∈ pre, P r) ∧ ¬ P bad := by
  induction l with
  | nil =>
    obtain ⟨r, hr, _⟩ := h
    simp at hr
  | cons a rest ih =>
    by_cases ha : P a
    · have hrest : ∃ r ∈ rest, ¬ P r := by
        obtain ⟨r, hr, hnot⟩ := h
        rcases List.mem_cons.mp hr with h1 | h1
        · subst h1
          exact absurd ha hnot
        · exact ⟨r, h1, hnot⟩
      obtain ⟨pre, bad, post, hsplit, hpre, hbad⟩ := ih hrest
      refine ⟨a :: pre, bad, post, by rw [hsplit]; rfl, ?_, hbad⟩
      intro r hr
      rcases List.mem_cons.mp hr with h1 | h1
      · subst h1
        exact ha
      · exact hpre r h1
    · exact ⟨[], a, rest, rfl, fun r hr => by simp at hr, ha⟩

/-- The loop of the transformer of `Predicator` up to the first row without the column:
the satisfying rows before it are sent, and the filter panics on it. -/
theorem Predicator.range_missing (column value : String) (pre : List Row) (bad : Row)
    (post : List Ptr) (hpre : ∀ r ∈ pre, TrimSpace column ∈ r.ColumnNames ∧ r.valid)
    (hbad : TrimSpace column ∉ bad.ColumnNames) :
    Predicator.range (predicateAsFunc.filter column value)
        (pre.map some ++ some bad :: post)
      = ⟨((pre.filter (satisfies (TrimSpace column) (TrimSpace value))).map some).map
          Event.send, pre.length + 1, some (Panic.error (GoError.New "not found"))⟩ := by
  induction pre with
  | nil =>
    simp only [List.map_nil, List.nil_append, Predicator.range,
      predicateAsFunc.filter_missing column value bad hbad]
    rfl
  | cons r rest ih =>
    have hr := hpre r (List.mem_cons_self r rest)
    have ih2 := ih fun q hq => hpre q (List.mem_cons_of_mem r hq)
    have hf := predicateAsFunc.filter_ok column value r hr.1
      (Row.valid_hasValue r _ hr.2 hr.1)
    simp only [List.map_cons, List.cons_append, Predicator.range, hf, List.append_eq]
    rw [ih2]
    cases hs : satisfies (TrimSpace column) (TrimSpace value) r
    · simp [Outcome.recv, List.filter_cons, hs]
    · simp [Outcome.recv, Outcome.send, List.filter_cons, hs]

/-- C14: for every predicate string containing `=` and every finite input of rows of the
data model, the transformer of `Predicator` panics if and only if some input row does not
name the predicate's column; it panics at the first such row, with the error of `argin`,
having sent exactly the satisfying rows that come before that row, and it sends nothing
after and does not close its output. -/
theorem Predicator_missing_column (predicate : String) (h : '=' ∈ predicate.data) :
    ∃ lhs rhs : String, ∃ t : Transformer,
      predicate = lhs ++ "=" ++ rhs ∧ '=' ∉ lhs.data ∧ Predicator predicate = Except.ok t ∧
      ∀ input : List Row, (∀ r ∈ input, r.valid) →
        ((t (input.map some)).panic ≠ none ↔ ∃ r ∈ input, TrimSpace lhs ∉ r.ColumnNames)
          ∧ ∀ (pre : List Row) (bad : Row) (post : List Row), input = pre ++ bad :: post →
              (∀ r ∈ pre, TrimSpace lhs ∈ r.ColumnNames) →
              TrimSpace lhs ∉ bad.ColumnNames →
              t (input.map some)
                  = ⟨((pre.filter (satisfies (TrimSpace lhs) (TrimSpace rhs))).map
                      some).map Event.send, pre.length + 1,
                      some (Panic.error (GoError.New "not found"))⟩
                ∧ (t (input.map some)).rows
                    = (pre.filter (satisfies (TrimSpace lhs) (TrimSpace rhs))).map some
                ∧ (t (input.map some)).closes = 0 := by
  obtain ⟨lhs, rhs, hp, hl⟩ := exists_split predicate h
  refine ⟨lhs, rhs,
    fun input => (Predicator.range (predicateAsFunc.filter lhs rhs) input).thenClose,
    hp, hl, ?_, ?_⟩
  · simp only [Predicator, hp, predicateAsFunc_split lhs rhs hl]
  · intro input hvalid
    have hat : ∀ (pre : List Row) (bad : Row) (post : List Row), input = pre ++ bad :: post →
        (∀ r ∈ pre, TrimSpace lhs ∈ r.ColumnNames) → TrimSpace lhs ∉ bad.ColumnNames →
        (Predicator.range (predicateAsFunc.filter lhs rhs) (input.map some)).thenClose
          = ⟨((pre.filter (satisfies (TrimSpace lhs) (TrimSpace rhs))).map some).map
              Event.send, pre.length + 1,
              some (Panic.error (GoError.New "not found"))⟩ := by
      intro pre bad post hsplit hpre hbad
      have hpre2 : ∀ r ∈ pre, TrimSpace lhs ∈ r.ColumnNames ∧ r.valid := fun r hr =>
        ⟨hpre r hr, hvalid r (by rw [hsplit]; exact List.mem_append_left _ hr)⟩
      rw [hsplit, List.map_append, List.map_cons,
        Predicator.range_missing lhs rhs pre bad (post.map some) hpre2 hbad]
      rfl
    refine ⟨⟨?_, ?_⟩, ?_⟩
    · intro hpanic
      by_contra hnone
      have hall : ∀ r ∈ input, TrimSpace lhs ∈ r.ColumnNames ∧ r.valid := by
        intro r hr
        refine ⟨?_, hvalid r hr⟩
        by_contra hcon
        exact hnone ⟨r, hr, hcon⟩
      apply hpanic
      show (Outcome.thenClose _).panic = none
      rw [Predicator.range_ok lhs rhs input hall]
      rfl
    · intro hmiss
      obtain ⟨pre, bad, post, hsplit, hpre, hbad⟩ :=
        exists_first_failing (fun r => TrimSpace lhs ∈ r.ColumnNames) input hmiss
      show (Outcome.thenClose _).panic ≠ none
      rw [hat pre bad post hsplit hpre hbad]
      simp
    · intro pre bad post hsplit hpre hbad
      have hrun := hat pre bad post hsplit hpre hbad
      refine ⟨hrun, ?_, ?_⟩
      · show Outcome.rows (Outcome.thenClose _) = _
        rw [hrun, Outcome.rows_sends]
      · show Outcome.closes (Outcome.thenClose _) = 0
        rw [hrun]
        exact count_close_sends _

/-- The predicate `a = 1` on three rows of which the second has no column `a`: the first
row is sent, the run panics on the second, and the third, which satisfies the predicate,
is not sent. -/
theorem Predicator_missing_column_witness :
    ∃ t : Transformer, Predicator "a = 1" = Except.ok t ∧
      t (mixedRows.map some)
        = ⟨[Event.send (some ⟨["a", "b"], ["1", "2"]⟩)], 2,
            some (Panic.error (GoError.New "not found"))⟩ := by
  obtain ⟨lhs, rhs, t, hp, hl, ht, hrun⟩ := Predicator_missing_column "a = 1" (by decide)
  have hsplit : ("a " : String) ++ "=" ++ " 1" = lhs ++ "=" ++ rhs := by
    rw [← hp]; decide
  obtain ⟨h1, h2⟩ := split_unique "a " " 1" lhs rhs hsplit (by decide) hl
  subst h1 h2
  exact ⟨t, ht, ((hrun mixedRows (by decide)).2 [⟨["a", "b"], ["1", "2"]⟩] ⟨["c"], ["9"]⟩
    [⟨["a", "b"], ["1", "4"]⟩] rfl (by decide) (by decide)).1.trans (by decide)⟩

/-! ## The reader's signal in slice -/

/-- C16, as stated, fails: when a nil value arrives on the reader's signal, `slice` returns
nil at once, with no line received and none written, where on a signal closed without a
value the same window on the same ten lines writes `r3`, `r4`, `r5`. -/
theorem slice_nil_signal_stops :
    slice (Signal.value none) tenLines 3 6 = ⟨none, [], true, 0, []⟩
      ∧ slice Signal.closed tenLines 3 6 = ⟨none, [], true, 3, ["r3", "r4", "r5"]⟩ := by
  decide

/-- C16, amended: for every valid window, `slice` returns the reader's start-up error, with
no line received and none written, exactly when the signal delivers an error; a nil value
on the signal is returned the same way; and when the signal is closed without a value
`slice` goes on to discard `from` lines and hand the rest, with the count `to - from`, to
the writing stage, or to report that the beginning was not reached. -/
theorem slice_reader_signal (input : List String) (f : Nat) (to_ : Int)
    (hwin : to_ = -1 ∨ (f : Int) < to_) :
    (∀ cause : String, slice (Signal.value (some cause)) input (f : Int) to_
        = ⟨some (GoError.startup cause), [], true, 0, []⟩)
      ∧ slice (Signal.value none) input (f : Int) to_ = ⟨none, [], true, 0, []⟩
      ∧ slice Signal.closed input (f : Int) to_
          = (if f ≤ input.length
             then ⟨none, [], true, f, handleLines (input.drop f) (to_ - (f : Int))⟩
             else ⟨some (GoError.ExitError "slice beginning not reached" 2), [], true,
               input.length, []⟩)
      ∧ ∀ (ret : Signal) (cause : String),
          (slice ret input (f : Int) to_).err = some (GoError.startup cause)
            ↔ ret = Signal.value (some cause) := by
  have h1 : ¬ (to_ ≠ -1 ∧ to_ ≤ (f : Int)) := by omega
  have h2 : ¬ ((f : Int) < 0) := by omega
  have hval : ∀ cause : Option String, slice (Signal.value cause) input (f : Int) to_
      = ⟨cause.map GoError.startup, [], true, 0, []⟩ := by
    intro cause
    simp only [slice, if_neg h1, if_neg h2]
  have hclosed := slice_closed_valid input (f : Int) to_ (by omega) hwin
  simp only [Int.toNat_ofNat] at hclosed
  refine ⟨fun cause => hval (some cause), hval none, hclosed, ?_⟩
  intro ret cause
  cases ret with
  | value c =>
    rw [hval c]
    cases c with
    | none => simp
    | some d => simp
  | closed =>
    rw [hclosed]
    by_cases hlen : f ≤ input.length
    · simp [if_pos hlen]
    · simp [if_neg hlen]

/-- A reader that cannot open its input: `slice` returns the start-up error and writes
nothing. -/
theorem slice_reader_signal_witness :
    slice (Signal.value (some "open: no such file")) tenLines 3 6
      = ⟨some (GoError.startup "open: no such file"), [], true, 0, []⟩ :=
  (slice_reader_signal tenLines 3 6 (Or.inr (by decide))).1 "open: no such file"

/-! ## Closing the output -/

theorem Outcome.closedOnce_closes (o : Outcome) (h : o.closedOnce) : o.closes = 1 := by
  obtain ⟨sent, hsent⟩ := h
  simp only [Outcome.closes, hsent, List.count_append, count_close_sends]
  rfl

/-- A `close(output)` after statements that only send: the output is closed once, as the
last operation, unless those statements panicked. -/
theorem Outcome.thenClose_closed (body : Outcome)
    (h : ∃ sent : List Ptr, body.events = sent.map Event.send) :
    body.thenClose.closedUnlessPanic := by
  obtain ⟨sent, hsent⟩ := h
  unfold Outcome.thenClose
  cases hp : body.panic with
  | none => exact ⟨fun _ => ⟨sent, by simp only [hsent]⟩, fun hne => absurd rfl hne⟩
  | some p =>
    refine ⟨fun hnone => by simp at hnone, fun _ => ?_⟩
    simp only [Outcome.closes, hsent]
    exact count_close_sends sent

theorem Outcome.closed_of_eq (sent : List Ptr) (taken : Nat) :
    (Outcome.mk (sent.map Event.send ++ [Event.close]) taken none).closedOnce
      ∧ (Outcome.mk (sent.map Event.send ++ [Event.close]) taken none).panic = none :=
  ⟨⟨sent, rfl⟩, rfl⟩

/-- The loop of the transformer of `Predicator` only sends, whatever the filter. -/
theorem Predicator.range_sends (filter : Filter) (input : List Ptr) :
    ∃ sent : List Ptr, (Predicator.range filter input).events = sent.map Event.send := by
  induction input with
  | nil => exact ⟨[], rfl⟩
  | cons row rest ih =>
    obtain ⟨sent, hsent⟩ := ih
    simp only [Predicator.range]
    cases hf : filter row with
    | error p => exact ⟨[], rfl⟩
    | ok b =>
      cases b with
      | true => exact ⟨row :: sent, by simp [Outcome.recv, Outcome.send, hsent]⟩
      | false => exact ⟨sent, by simp [Outcome.recv, hsent]⟩

theorem ColumnIntSelector_closed (idx : List Int) (input : List Ptr) :
    (ColumnIntSelector idx input).closedUnlessPanic :=
  Outcome.thenClose_closed _ (ColumnIntSelector.range_inv idx input [] true).1

theorem ColumnStringSelector_closed (columns : List String) (input : List Ptr) :
    (ColumnStringSelector columns input).closedUnlessPanic := by
  cases input with
  | nil => exact ⟨fun _ => ⟨[], rfl⟩, fun hne => absurd rfl hne⟩
  | cons row rest =>
    cases row with
    | none => exact ⟨fun _ => ⟨[], rfl⟩, fun hne => absurd rfl hne⟩
    | some r =>
      simp only [ColumnStringSelector]
      cases hi : ColumnStringSelector.indices r columns with
      | error p =>
        refine ⟨fun hnone => ?_, fun _ => rfl⟩
        simp [Outcome.recv, Outcome.raise] at hnone
      | ok indices => exact ColumnIntSelector_closed indices _

/-- C17, as stated, fails: `ColumnStringSelector` asked for a column `z` that the rows do
not have panics on the first row and never closes its output. -/
theorem ColumnStringSelector_panic_leaves_open :
    (ColumnStringSelector ["z"] (exampleRows.map some)).events = []
      ∧ (ColumnStringSelector ["z"] (exampleRows.map some)).closes = 0
      ∧ (ColumnStringSelector ["z"] (exampleRows.map some)).panic
          = some (Panic.error (GoError.New "not found"))
      ∧ ¬ (ColumnStringSelector ["z"] (exampleRows.map some)).closedOnce := by
  have hev : (ColumnStringSelector ["z"] (exampleRows.map some)).events = [] := by decide
  refine ⟨hev, by decide, by decide, ?_⟩
  rintro ⟨sent, hsent⟩
  rw [hev] at hsent
  simp at hsent

/-- C17, amended: on every finite input each of the six transformers terminates;
`RowSkipper`, `RowLimiter` and `IdentityTransformer` never panic and close their output
exactly once, after their last send; `ColumnIntSelector`, `ColumnStringSelector` and the
transformer of `Predicator` close their output exactly once, after their last send, on
every run that does not panic, the early return on an empty input included, and a run
that panics has not closed its output. -/
theorem transformers_close_unless_panic (input : List Ptr) :
    (∀ n : Int, (RowSkipper n input).closedOnce ∧ (RowSkipper n input).panic = none)
      ∧ (∀ n : Int, (RowLimiter n input).closedOnce ∧ (RowLimiter n input).panic = none)
      ∧ ((IdentityTransformer input).closedOnce ∧ (IdentityTransformer input).panic = none)
      ∧ (∀ idx : List Int, (ColumnIntSelector idx input).closedUnlessPanic)
      ∧ (∀ columns : List String, (ColumnStringSelector columns input).closedUnlessPanic)
      ∧ (∀ (predicate : String) (t : Transformer), Predicator predicate = Except.ok t →
          (t input).closedUnlessPanic)
      ∧ ∀ o : Outcome, o.closedOnce →
          o.closes = 1 ∧ o.events.getLast? = some Event.close := by
  refine ⟨?_, ?_, ?_, fun idx => ColumnIntSelector_closed idx input,
    fun columns => ColumnStringSelector_closed columns input, ?_, ?_⟩
  · intro n
    rw [RowSkipper_eq]
    exact Outcome.closed_of_eq _ _
  · intro n
    rcases Int.lt_or_le 0 n with hn | hn
    · rw [RowLimiter_pos n input hn]
      exact Outcome.closed_of_eq _ _
    · rw [RowLimiter_nonpos n input hn]
      exact Outcome.closed_of_eq _ _
  · rw [IdentityTransformer_eq]
    exact Outcome.closed_of_eq _ _
  · intro predicate t ht
    unfold Predicator at ht
    cases hparse : predicateAsFunc predicate with
    | error err =>
      rw [hparse] at ht
      cases ht
    | ok filter =>
      rw [hparse] at ht
      simp only [Except.ok.injEq] at ht
      rw [← ht]
      exact Outcome.thenClose_closed _ (Predicator.range_sends filter input)
  · intro o ho
    refine ⟨Outcome.closedOnce_closes o ho, ?_⟩
    obtain ⟨sent, hsent⟩ := ho
    rw [hsent]
    simp

/-- The selection of column `1` on the two example rows ends without a panic, and so with
its output closed once, after the two sends. -/
theorem transformers_close_unless_panic_witness :
    (ColumnIntSelector [1] (exampleRows.map some)).closedOnce
      ∧ (ColumnIntSelector [1] (exampleRows.map some)).closes = 1 :=
  ⟨((transformers_close_unless_panic (exampleRows.map some)).2.2.2.1 [1]).1 (by decide),
   ((transformers_close_unless_panic (exampleRows.map some)).2.2.2.2.2.2 _
      (((transformers_close_unless_panic (exampleRows.map some)).2.2.2.1 [1]).1
        (by decide))).1⟩

end Flat
